import Mathlib

/-!
Verification of the resume-rater scoring core (src/skills.py, src/scoring.py).

Strings are modelled as lists of characters (`Str := List Char`); Python's
ASCII-relevant `str.lower`, `str.strip`, `str.split` and substring operations
are implemented below for that representation.  Numeric values are modelled
as rationals (`ℚ`): the Python code computes with floats, but every quantity
the verified claims touch is an exact small decimal, so `ℚ` is the reference
semantics for the arithmetic the source expresses.
-/

set_option maxRecDepth 10000

abbrev Str := List Char

/-- ASCII lower-casing of one character, as Python's `str.lower` acts on
the ASCII range (all strings in the table and the scoring keyword lists
are ASCII). -/
def lcChar (c : Char) : Char :=
  if 'A' ≤ c ∧ c ≤ 'Z' then Char.ofNat (c.toNat + 32) else c

/-- `str.lower` on the ASCII range. -/
def lcStr (s : Str) : Str := s.map lcChar

/-- Python whitespace (`str.strip` / `\s` on the ASCII range). -/
def isWS (c : Char) : Bool :=
  c = ' ' || c = '\t' || c = '\n' || c = '\x0d' || c = '\x0b' || c = '\x0c'

/-- Drop leading whitespace. -/
def dropWSLead : Str → Str
  | [] => []
  | c :: cs => if isWS c then dropWSLead cs else c :: cs

/-- Python `str.strip`. -/
def stripWS (s : Str) : Str :=
  ((dropWSLead ((dropWSLead s).reverse)).reverse)

/-- Does `s` start with `pat`? -/
def sStarts : Str → Str → Bool
  | [], _ => true
  | _ :: _, [] => false
  | p :: ps, c :: cs => p = c && sStarts ps cs

/-- Python's `pat in s` substring test (empty pattern is contained in
every string, as in Python). -/
def isSubstr (pat : Str) : Str → Bool
  | [] => sStarts pat []
  | c :: cs => sStarts pat (c :: cs) || isSubstr pat cs

/-- First character is whitespace. -/
def wsHead : Str → Bool
  | [] => false
  | c :: _ => isWS c

/-- Python `str.split()` (split on whitespace runs, no empty tokens):
worker carrying the current token reversed. -/
def splitWSAux : Str → Str → List Str
  | [], acc => if acc.isEmpty then [] else [acc.reverse]
  | c :: cs, acc =>
    if isWS c then
      if acc.isEmpty then splitWSAux cs [] else acc.reverse :: splitWSAux cs []
    else splitWSAux cs (c :: acc)

/-- Python `str.split()`. -/
def splitWS (s : Str) : List Str := splitWSAux s []

/-! ## src/skills.py : the alias table -/

/-- `SKILL_ALIASES` of src/skills.py, in source (= Python dict insertion)
order, which is the order `normalize_skill` scans. -/
def SKILL_ALIASES : List (Str × List Str) := [
  ("javascript".data, ["js".data, "ecmascript".data, "node.js".data, "nodejs".data, "node js".data]),
  ("typescript".data, ["ts".data]),
  ("python".data, ["py".data, "python3".data, "python2".data]),
  ("java".data, ["java8".data, "java11".data, "java17".data, "jdk".data, "jre".data]),
  ("c#".data, ["csharp".data, "c sharp".data, ".net".data, "dotnet".data]),
  ("c++".data, ["cpp".data, "c plus plus".data]),
  ("objective-c".data, ["objc".data, "objective c".data]),
  ("go".data, ["golang".data]),
  ("ruby".data, ["rb".data]),
  ("php".data, ["php7".data, "php8".data]),
  ("swift".data, ["ios".data, "swiftui".data]),
  ("kotlin".data, ["kt".data]),
  ("scala".data, ["sc".data]),
  ("r".data, ["r-lang".data, "rstudio".data]),
  ("react".data, ["reactjs".data, "react.js".data, "react js".data]),
  ("vue".data, ["vuejs".data, "vue.js".data, "vue js".data]),
  ("angular".data, ["angularjs".data, "angular.js".data, "angular js".data]),
  ("express".data, ["expressjs".data, "express.js".data]),
  ("django".data, ["python django".data]),
  ("flask".data, ["python flask".data]),
  ("spring".data, ["spring boot".data, "springboot".data, "spring framework".data]),
  ("laravel".data, ["php laravel".data]),
  ("rails".data, ["ruby on rails".data, "rubyonrails".data, "ror".data]),
  ("asp.net".data, ["aspnet".data, "asp net".data]),
  ("jquery".data, ["jquery.js".data]),
  ("bootstrap".data, ["bootstrap css".data]),
  ("tailwind".data, ["tailwindcss".data, "tailwind css".data]),
  ("postgresql".data, ["postgres".data, "psql".data]),
  ("mysql".data, ["my sql".data]),
  ("mongodb".data, ["mongo".data, "mongo db".data]),
  ("redis".data, ["redis cache".data]),
  ("elasticsearch".data, ["elastic search".data, "es".data]),
  ("oracle".data, ["oracle db".data, "oracledb".data]),
  ("sql server".data, ["sqlserver".data, "mssql".data, "ms sql".data]),
  ("sqlite".data, ["sqlite3".data]),
  ("dynamodb".data, ["dynamo db".data, "dynamo".data]),
  ("cassandra".data, ["apache cassandra".data]),
  ("aws".data, ["amazon web services".data, "amazon aws".data]),
  ("azure".data, ["microsoft azure".data, "ms azure".data]),
  ("gcp".data, ["google cloud".data, "google cloud platform".data]),
  ("docker".data, ["containerization".data]),
  ("kubernetes".data, ["k8s".data, "k8".data]),
  ("jenkins".data, ["ci/cd".data, "cicd".data]),
  ("terraform".data, ["iac".data, "infrastructure as code".data]),
  ("ansible".data, ["configuration management".data]),
  ("git".data, ["github".data, "gitlab".data, "bitbucket".data, "version control".data]),
  ("ci/cd".data, ["continuous integration".data, "continuous deployment".data, "cicd".data]),
  ("rest".data, ["rest api".data, "restful".data, "restful api".data]),
  ("graphql".data, ["graph ql".data]),
  ("microservices".data, ["micro services".data, "service oriented architecture".data, "soa".data]),
  ("machine learning".data, ["ml".data, "artificial intelligence".data, "ai".data]),
  ("deep learning".data, ["dl".data, "neural networks".data]),
  ("data science".data, ["ds".data, "data analysis".data]),
  ("big data".data, ["bigdata".data, "hadoop".data, "spark".data]),
  ("blockchain".data, ["bitcoin".data, "ethereum".data, "crypto".data]),
  ("api".data, ["apis".data, "web services".data]),
  ("json".data, ["javascript object notation".data]),
  ("xml".data, ["extensible markup language".data]),
  ("html".data, ["html5".data, "hypertext markup language".data]),
  ("css".data, ["css3".data, "cascading style sheets".data]),
  ("sass".data, ["scss".data]),
  ("less".data, ["lesscss".data]),
  ("webpack".data, ["bundler".data]),
  ("babel".data, ["transpiler".data]),
  ("npm".data, ["node package manager".data]),
  ("yarn".data, ["package manager".data]),
  ("agile".data, ["scrum".data, "kanban".data]),
  ("tdd".data, ["test driven development".data]),
  ("bdd".data, ["behavior driven development".data])]

/-! ## src/skills.py : normalize_skill -/

/-- The alternatives of the leading-filler regex `^(using|with|in)\s+`,
in the pattern's alternation order. -/
def fillerLeads : List Str := ["using".data, "with".data, "in".data]

/-- The alternatives of the trailing-filler regex
`\s+(programming|development|framework|library|database|tool)$`. -/
def fillerTails : List Str :=
  ["programming".data, "development".data, "framework".data,
   "library".data, "database".data, "tool".data]

/-- `re.sub(r'^(using|with|in)\s+', '', s)`: if the string starts with a
filler word followed by at least one whitespace character, drop the word
and the whole (greedy `\s+`) whitespace run. -/
def dropFillerLead (s : Str) : Str :=
  match fillerLeads.find? (fun w => sStarts w s && wsHead (s.drop w.length)) with
  | some w => dropWSLead (s.drop w.length)
  | none => s

/-- `re.sub(r'\s+(programming|...|tool)$', '', s)`: if the string ends
with a filler word preceded by at least one whitespace character, drop
the word and the whole preceding whitespace run (the leftmost match of
the anchored pattern covers the entire run). -/
def dropFillerTail (s : Str) : Str :=
  match fillerTails.find?
      (fun w => sStarts w.reverse s.reverse && wsHead (s.reverse.drop w.length)) with
  | some w => (dropWSLead (s.reverse.drop w.length)).reverse
  | none => s

/-- The cleaning pass of `normalize_skill` (lower-case, strip, drop the
filler regexes) before the alias-table lookup. -/
def cleanSkill (s : Str) : Str :=
  dropFillerTail (dropFillerLead (stripWS (lcStr s)))

/-- The alias-table scan of `normalize_skill`: the first entry whose
canonical name or alias list matches wins; otherwise the input is
returned unchanged. -/
def lookupCanon (t : Str) : Str :=
  match SKILL_ALIASES.find? (fun p => t = p.1 || t ∈ p.2) with
  | some p => p.1
  | none => t

/-- `normalize_skill` of src/skills.py. -/
def normalize_skill (s : Str) : Str := lookupCanon (cleanSkill s)

/-- Canonical keys of the alias table. -/
def canonKeys : List Str := SKILL_ALIASES.map Prod.fst

/-- `t` matches no alias-table entry (neither a canonical name nor an
alias), so the table scan returns it unchanged. -/
def tableMiss (t : Str) : Bool :=
  (SKILL_ALIASES.find? (fun p => t = p.1 || t ∈ p.2)).isNone

/-- Alias list of a canonical key. -/
def aliasListOf (k : Str) : List Str :=
  ((SKILL_ALIASES.find? (fun p => p.1 = k)).map Prod.snd).getD []

/-- All (canonical key, alias) pairs of the table. -/
def aliasPairs : List (Str × Str) :=
  (SKILL_ALIASES.map (fun p => p.2.map (fun a => (p.1, a)))).flatten

lemma lookupCanon_of_miss (t : Str) (h : tableMiss t = true) : lookupCanon t = t := by
  unfold lookupCanon
  unfold tableMiss at h
  rw [Option.isNone_iff_eq_none] at h
  rw [h]

lemma canon_fixed : ∀ t ∈ canonKeys, t ≠ "ci/cd".data → normalize_skill t = t := by decide

/-- C4 (counterexample): `normalize` is not idempotent.  The cleaned
string "continuous integration" resolves to the canonical key "ci/cd",
but normalizing "ci/cd" again yields "jenkins", because the `jenkins`
entry precedes the `ci/cd` entry in the table and lists "ci/cd" as one
of its aliases. -/
theorem skills_C4_counterexample :
    normalize_skill (normalize_skill ("continuous integration".data)) ≠
      normalize_skill ("continuous integration".data) := by decide

/-- C4 (amended): normalization is idempotent on every input whose
normal form is either (a) a canonical table key other than "ci/cd", or
(b) a string that is fixed by the cleaning pass and matches no table
entry.  (Idempotency fails in general: see the counterexample.) -/
theorem skills_C4_amended (s : Str)
    (h : (normalize_skill s ∈ canonKeys ∧ normalize_skill s ≠ "ci/cd".data) ∨
      (cleanSkill (normalize_skill s) = normalize_skill s ∧
        tableMiss (normalize_skill s) = true)) :
    normalize_skill (normalize_skill s) = normalize_skill s := by
  rcases h with ⟨hmem, hne⟩ | ⟨hclean, hmiss⟩
  · exact canon_fixed _ hmem hne
  · show lookupCanon (cleanSkill (normalize_skill s)) = normalize_skill s
    rw [hclean]
    exact lookupCanon_of_miss _ hmiss

/-- Witness for C4's amended theorem at the concrete input "python". -/
theorem skills_C4_amended_witness :
    normalize_skill (normalize_skill ("python".data)) = normalize_skill ("python".data) :=
  skills_C4_amended ("python".data) (Or.inl (by decide))

/-- C5 (counterexample): two distinct canonical entries do share an
alias: both `jenkins` and `ci/cd` list the alias "cicd". -/
theorem skills_C5_counterexample :
    "cicd".data ∈ aliasListOf ("jenkins".data) ∧
      "cicd".data ∈ aliasListOf ("ci/cd".data) ∧
      "jenkins".data ≠ "ci/cd".data := by decide

/-- C5 (amended): the `jenkins`/`ci/cd` pair sharing the alias "cicd" is
the only collision: any alias string carried by two distinct canonical
keys is "cicd", carried exactly by "jenkins" and "ci/cd". -/
theorem skills_C5_amended :
    ∀ p ∈ aliasPairs, ∀ q ∈ aliasPairs, p.2 = q.2 → p.1 ≠ q.1 →
      p.2 = "cicd".data ∧
        ((p.1 = "jenkins".data ∧ q.1 = "ci/cd".data) ∨
          (p.1 = "ci/cd".data ∧ q.1 = "jenkins".data)) := by decide

/-- Witness for C5's amended theorem at the concrete shared alias. -/
theorem skills_C5_amended_witness :
    ("cicd".data : Str) = "cicd".data ∧
      ((("jenkins".data : Str) = "jenkins".data ∧ ("ci/cd".data : Str) = "ci/cd".data) ∨
        (("jenkins".data : Str) = "ci/cd".data ∧ ("ci/cd".data : Str) = "jenkins".data)) :=
  skills_C5_amended ("jenkins".data, "cicd".data) (by decide)
    ("ci/cd".data, "cicd".data) (by decide) rfl (by decide)

/-! ## Python round (banker's rounding) and src/scoring.py aggregation -/

/-- Python `round` to an integer: round half to even.  Python's float
`round` acts on binary floats; on the exact decimal values produced by
the scoring pipeline the rational model below agrees with it. -/
def bankersInt (q : ℚ) : ℤ :=
  if q - ⌊q⌋ < 1/2 then ⌊q⌋
  else if (1:ℚ)/2 < q - ⌊q⌋ then ⌊q⌋ + 1
  else if ⌊q⌋ % 2 = 0 then ⌊q⌋ else ⌊q⌋ + 1

/-- Python `round(q, n)`. -/
def pyRound (q : ℚ) (n : ℕ) : ℚ := (bankersInt (q * 10 ^ n) : ℚ) / 10 ^ n

/-- The fixed weight table of `aggregate_enhanced_scores`, in source
order. -/
def WEIGHTS : List (Str × ℚ) := [
  ("skill_match_score".data, 1/4),
  ("skill_context_score".data, 3/20),
  ("experience_duration_score".data, 1/5),
  ("impact_score".data, 1/10),
  ("project_score".data, 1/10),
  ("education_score".data, 1/10),
  ("relevance_score".data, 1/10)]

/-- Dictionary lookup (`k in d` / `d[k]`) on an association list with
distinct keys, the模型 of the Python dicts the aggregator receives. -/
def lookupV (d : List (Str × ℚ)) (k : Str) : Option ℚ :=
  (d.find? (fun p => p.1 = k)).map Prod.snd

/-- The weighted sum `total_score` of `aggregate_enhanced_scores`:
components missing from the input contribute nothing. -/
def rawTotal (cs : List (Str × ℚ)) : ℚ :=
  WEIGHTS.foldl
    (fun acc w => match lookupV cs w.1 with
      | some v => acc + w.2 * v
      | none => acc) 0

/-- `s.endswith(pat)`. -/
def sEndsWith (s pat : Str) : Bool := sStarts pat.reverse s.reverse

/-- `score_components`: the numeric entries whose key ends in "_score"
(the model's association lists are numeric by type, mirroring the
`isinstance(v, (int, float))` filter). -/
def scoreComponents (cs : List (Str × ℚ)) : List (Str × ℚ) :=
  cs.filter (fun p => sEndsWith p.1 ("_score".data))

/-- `component_count`: how many score components exceed 0.3. -/
def densityCount (cs : List (Str × ℚ)) : ℕ :=
  (scoreComponents cs).countP (fun p => 3/10 < p.2)

/-- `total_score` after the density bonus/penalty. -/
def adjTotal (cs : List (Str × ℚ)) : ℚ :=
  let t := rawTotal cs
  if 5 ≤ densityCount cs then t * (11/10)
  else if densityCount cs ≤ 2 then t * (9/10)
  else t

/-- The record returned by `aggregate_enhanced_scores` (the static
`weights_used` echo is the constant `WEIGHTS`). -/
structure AggregatedScore where
  score_0_100 : ℚ
  score_0_10 : ℚ
  per_component_0_10 : List (Str × ℚ)
  deriving DecidableEq

/-- `aggregate_enhanced_scores` of src/scoring.py. -/
def aggregate_enhanced_scores (cs : List (Str × ℚ)) : AggregatedScore :=
  let f100 := min 100 (adjTotal cs * 100)
  { score_0_100 := pyRound f100 1
    score_0_10 := pyRound (f100 / 10) 2
    per_component_0_10 := WEIGHTS.filterMap
      (fun w => match lookupV cs w.1 with
        | some v => some (w.1, pyRound (v * 10) 1)
        | none => none) }

/-- The component record with all seven weighted sub-scores equal to
1.0. -/
def allOnesComponents : List (Str × ℚ) := WEIGHTS.map (fun w => (w.1, 1))

lemma rawTotal_allOnes : rawTotal allOnesComponents = 1 := by
  simp +decide [rawTotal, WEIGHTS, allOnesComponents, lookupV, List.find?]
  norm_num

lemma density_allOnes : densityCount allOnesComponents = 7 := by
  have h : (3:ℚ)/10 < 1 := by norm_num
  simp +decide [densityCount, scoreComponents, allOnesComponents, WEIGHTS, sEndsWith,
    sStarts, List.countP, List.countP.go, decide_eq_true h]

lemma adj_allOnes : adjTotal allOnesComponents = 11/10 := by
  rw [adjTotal, rawTotal_allOnes, density_allOnes]
  norm_num

/-- C2: aggregating a record whose seven weighted sub-scores are all 1.0
gives raw total 1.0, a density count of 7 (≥ 5, so the ×1.1 bonus
applies, making 1.1), and after the min(100, ·) clamp the final scores
are 100.0 and 10.0. -/
theorem scoring_C2 :
    rawTotal allOnesComponents = 1 ∧
      densityCount allOnesComponents = 7 ∧
      adjTotal allOnesComponents = 11/10 ∧
      (aggregate_enhanced_scores allOnesComponents).score_0_100 = 100 ∧
      (aggregate_enhanced_scores allOnesComponents).score_0_10 = 10 := by
  have hmin : min (100:ℚ) (11/10 * 100) = 100 := by norm_num
  refine ⟨rawTotal_allOnes, density_allOnes, adj_allOnes, ?_, ?_⟩ <;>
    · show pyRound _ _ = _
      rw [adj_allOnes, hmin]
      norm_num [pyRound, bankersInt]

/-! ## src/scoring.py : the experience-duration curve -/

/-- The `technical_years` piecewise curve of
`compute_enhanced_component_scores` (src/scoring.py lines 41-50). -/
def experience_duration_score (t : ℚ) : ℚ :=
  if 5 ≤ t then 1
  else if 3 ≤ t then 4/5 + (t - 3) * (1/10)
  else if 1 ≤ t then 2/5 + (t - 1) * (1/5)
  else if 1/2 ≤ t then 1/5 + (t - 1/2) * (2/5)
  else t * (2/5)

/-- The curve exactly as the specification words it (with explicit
two-sided bracket conditions), used to check the code against the
spec's formula. -/
def durationCurveSpec (t : ℚ) : ℚ :=
  if 5 ≤ t then 1
  else if 3 ≤ t ∧ t < 5 then 4/5 + (t - 3) * (1/10)
  else if 1 ≤ t ∧ t < 3 then 2/5 + (t - 1) * (1/5)
  else if 1/2 ≤ t ∧ t < 1 then 1/5 + (t - 1/2) * (2/5)
  else t * (2/5)

/-- C3: the code's experience-duration score equals the spec's
piecewise-linear curve, is monotone non-decreasing, and takes the
stated values at 5, 3 and 0. -/
theorem scoring_C3 :
    (∀ t : ℚ, experience_duration_score t = durationCurveSpec t) ∧
      (∀ t u : ℚ, t ≤ u →
        experience_duration_score t ≤ experience_duration_score u) ∧
      experience_duration_score 5 = 1 ∧
      experience_duration_score 3 = 4/5 ∧
      experience_duration_score 0 = 0 := by
  refine ⟨?_, ?_, by norm_num [experience_duration_score],
      by norm_num [experience_duration_score], by norm_num [experience_duration_score]⟩
  · intro t
    simp only [experience_duration_score, durationCurveSpec]
    by_cases h5 : 5 ≤ t
    · rw [if_pos h5, if_pos h5]
    · rw [if_neg h5, if_neg h5]
      by_cases h3 : 3 ≤ t
      · rw [if_pos h3, if_pos (show 3 ≤ t ∧ t < 5 from ⟨h3, lt_of_not_le h5⟩)]
      · rw [if_neg h3, if_neg (show ¬(3 ≤ t ∧ t < 5) from fun hc => h3 hc.1)]
        by_cases h1 : 1 ≤ t
        · rw [if_pos h1, if_pos (show 1 ≤ t ∧ t < 3 from ⟨h1, lt_of_not_le h3⟩)]
        · rw [if_neg h1, if_neg (show ¬(1 ≤ t ∧ t < 3) from fun hc => h1 hc.1)]
          by_cases hh : (1:ℚ)/2 ≤ t
          · rw [if_pos hh, if_pos (show 1/2 ≤ t ∧ t < 1 from ⟨hh, lt_of_not_le h1⟩)]
          · rw [if_neg hh, if_neg (show ¬((1:ℚ)/2 ≤ t ∧ t < 1) from fun hc => hh hc.1)]
  · intro t u htu
    unfold experience_duration_score
    split_ifs <;> linarith

/-- Witness for C3 (instantiating the monotonicity hypothesis at 1 ≤ 2). -/
theorem scoring_C3_witness :
    (1:ℚ) ≤ 2 ∧ experience_duration_score 1 ≤ experience_duration_score 2 :=
  ⟨by norm_num, scoring_C3.2.1 1 2 (by norm_num)⟩

/-! ## A small backtracking regex engine

`compute_enhanced_component_scores` uses `re.findall` / `re.search` with
six impact patterns and three project patterns, all compiled with
`re.IGNORECASE`.  The engine below implements exactly the constructs
those nine patterns use (literals, classes, alternation, greedy and lazy
star, `\b`), with Python's leftmost-then-preference match order.
Matching is case-insensitive (every caller passes `re.IGNORECASE`).
All recursion is structural (star is fuelled by the suffix length, which
suffices because every starred sub-pattern consumes at least one
character per iteration, as in all nine source patterns). -/

inductive RE where
  | eps : RE
  | lit (c : Char) : RE
  | cls (p : Char → Bool) : RE
  | cat (r1 r2 : RE) : RE
  | alt (r1 r2 : RE) : RE
  | star (lazy : Bool) (r : RE) : RE
  | wordB : RE

def isDigit (c : Char) : Bool := '0' ≤ c && c ≤ '9'

def isWordCh (c : Char) : Bool :=
  isDigit c || ('a' ≤ c && c ≤ 'z') || ('A' ≤ c && c ≤ 'Z') || c = '_'

/-- `\b`: the previous character (none at the string start) and the next
character (none at the end) disagree on word-character-ness. -/
def wordBoundary (prev : Option Char) (s : Str) : Bool :=
  (match prev with | some c => isWordCh c | none => false) !=
    (match s with | c :: _ => isWordCh c | [] => false)

/-- One level of the matcher: returns the continuation states
(previous character, remaining suffix) in Python's backtracking
preference order; `next` handles one more star unfolding. -/
def reMAt (next : RE → Option Char → Str → List (Option Char × Str)) :
    RE → Option Char → Str → List (Option Char × Str)
  | .eps, prev, s => [(prev, s)]
  | .lit c, _prev, s =>
    match s with
    | [] => []
    | x :: xs => if lcChar x = c then [(some x, xs)] else []
  | .cls p, _prev, s =>
    match s with
    | [] => []
    | x :: xs => if p x then [(some x, xs)] else []
  | .wordB, prev, s => if wordBoundary prev s then [(prev, s)] else []
  | .cat r1 r2, prev, s =>
    (reMAt next r1 prev s).flatMap (fun st => reMAt next r2 st.1 st.2)
  | .alt r1 r2, prev, s => reMAt next r1 prev s ++ reMAt next r2 prev s
  | .star lz r, prev, s =>
    let deeper := (next r prev s).flatMap (fun st => next (.star lz r) st.1 st.2)
    if lz then (prev, s) :: deeper else deeper ++ [(prev, s)]

/-- The fuelled matcher (fuel only bounds star unfoldings). -/
def reMatches : ℕ → RE → Option Char → Str → List (Option Char × Str)
  | 0 => reMAt (fun _ prev s => [(prev, s)])
  | f + 1 => reMAt (reMatches f)

/-- Python's first (preferred) match of `r` at the current position:
the number of characters it consumes. -/
def matchAt (r : RE) (prev : Option Char) (s : Str) : Option ℕ :=
  match reMatches (s.length + 2) r prev s with
  | [] => none
  | st :: _ => some (s.length - st.2.length)

/-- `re.search` scanning: is there a match at some position? -/
def reSearchAux (r : RE) : Option Char → Str → Bool
  | prev, [] => (matchAt r prev []).isSome
  | prev, c :: cs => (matchAt r prev (c :: cs)).isSome || reSearchAux r (some c) cs

/-- `re.search(pattern, text) is not None`. -/
def reSearch (r : RE) (text : Str) : Bool := reSearchAux r none text

/-- `len(re.findall(pattern, text))`: count non-overlapping matches,
scanning left to right and restarting after each match (a zero-width
match advances by one character, as in Python). -/
def reCountAux (r : RE) : ℕ → Option Char → Str → ℕ
  | 0, _, _ => 0
  | f + 1, prev, s =>
    match matchAt r prev s with
    | some k =>
      if k = 0 then
        match s with
        | [] => 1
        | c :: cs => 1 + reCountAux r f (some c) cs
      else 1 + reCountAux r f (s.get? (k - 1)) (s.drop k)
    | none =>
      match s with
      | [] => 0
      | c :: cs => reCountAux r f (some c) cs

def reCountAll (r : RE) (text : Str) : ℕ := reCountAux r (text.length + 1) none text

/-- A literal word (lower-cased; matching is case-insensitive). -/
def reLits (w : Str) : RE := w.foldr (fun c r => .cat (.lit (lcChar c)) r) .eps

def reAlts : List RE → RE
  | [] => .cls (fun _ => false)
  | [r] => r
  | r :: rs => .alt r (reAlts rs)

def reWords (ws : List Str) : RE := reAlts (ws.map reLits)

def dPlus : RE := .cat (.cls isDigit) (.star false (.cls isDigit))

def wsCls : RE := .cls (fun c => isWS c)

def sStar : RE := .star false wsCls

def sPlus : RE := .cat wsCls sStar

def dotLazyStar : RE := .star true (.cls (fun c => !(c = '\n')))

def reOpt (r : RE) : RE := .alt r .eps

/-! ## src/scoring.py : impact, project, education, relevance -/

/-- The six `impact_indicators` regexes of
`compute_enhanced_component_scores`, in source order. -/
def impactREs : List RE := [
  .cat dPlus (.cat (.lit '%') (.cat sStar (reWords
    ["increase".data, "improvement".data, "reduction".data, "growth".data,
     "faster".data, "better".data]))),
  .cat (.lit '$') (.cat dPlus (.cat (reOpt (.cls (fun c => lcChar c = 'k' || lcChar c = 'm' || lcChar c = 'b')))
    (.cat sStar (reWords ["saved".data, "revenue".data, "budget".data, "cost".data])))),
  .cat dPlus (.cat sStar (reWords
    ["users".data, "customers".data, "clients".data, "projects".data, "applications".data])),
  .cat (reWords ["increased".data, "improved".data, "reduced".data, "optimized".data,
    "enhanced".data]) (.cat dotLazyStar dPlus),
  .cat dPlus (.cat (.lit 'x') (.cat sStar (reWords
    ["faster".data, "improvement".data, "increase".data]))),
  .cat (reWords ["led".data, "managed".data]) (.cat sPlus
    (.cat (reOpt (.cat (reLits ("team of".data)) sPlus)) dPlus))]

/-- `impact_count`: total number of matches of the six impact regexes
over the resume text. -/
def impactCount (text : Str) : ℕ :=
  (impactREs.map (fun r => reCountAll r text)).sum

/-- The nine fixed action verbs of the impact fallback, in source
order. -/
def ACTION_VERBS : List Str :=
  ["developed".data, "built".data, "created".data, "designed".data,
   "implemented".data, "optimized".data, "improved".data, "led".data, "managed".data]

/-- `action_count`: how many of the nine action verbs occur in the
lower-cased resume text as substrings (each verb counted once, as the
source's `sum(1 for verb in action_verbs if verb in resume_text.lower())`
counts presence, not multiplicity). -/
def actionVerbCount (text : Str) : ℕ :=
  ACTION_VERBS.countP (fun v => isSubstr v (lcStr text))

/-- `impact_score` of `compute_enhanced_component_scores`. -/
def impact_score (text : Str) : ℚ :=
  if 5 ≤ impactCount text then 1
  else if 3 ≤ impactCount text then 4/5
  else if 1 ≤ impactCount text then 3/5
  else min (2/5) ((actionVerbCount text : ℚ) * (1/20))

/-- The three `project_indicators` regexes, in source order. -/
def projectREs : List RE := [
  .cat .wordB (.cat (reAlts [reLits "project".data, reLits "projects".data,
    reLits "portfolio".data, reLits "github".data,
    .cat (reLits "personal".data) (.cat sPlus (reLits "work".data))]) .wordB),
  .cat .wordB (.cat (reWords ["built".data, "created".data, "developed".data])
    (.cat dotLazyStar (.cat (reWords ["application".data, "app".data, "website".data,
      "system".data, "tool".data]) .wordB))),
  .cat .wordB (.cat (reAlts [
    .cat (reLits "side".data) (.cat sPlus (reLits "project".data)),
    .cat (reLits "open".data) (.cat sPlus (reLits "source".data)),
    reLits "hackathon".data, reLits "competition".data]) .wordB)]

/-- `project_score`: 0.3 per matching project indicator, capped at 1. -/
def project_score (text : Str) : ℚ :=
  min 1 ((3:ℚ)/10 * (projectREs.countP (fun r => reSearch r text)))

/-- The `education_indicators` table, in source (dict insertion) order. -/
def EDUCATION_INDICATORS : List (Str × ℚ) := [
  ("phd".data, 1), ("ph.d".data, 1), ("doctorate".data, 1),
  ("master".data, 9/10), ("m.s".data, 9/10), ("msc".data, 9/10),
  ("mba".data, 4/5),
  ("bachelor".data, 7/10), ("b.s".data, 7/10), ("bsc".data, 7/10),
  ("associate".data, 1/2),
  ("certification".data, 2/5), ("bootcamp".data, 2/5),
  ("diploma".data, 3/10)]

/-- `education_score`: default 0.3; the scan breaks at the first table
term found in the lower-cased resume text, taking `max(0.3, score)`. -/
def education_score (resume_lower : Str) : ℚ :=
  match EDUCATION_INDICATORS.find? (fun p => isSubstr p.1 resume_lower) with
  | some p => max (3/10) p.2
  | none => 3/10

/-- The `job_types` keyword buckets, in source order. -/
def JOB_TYPES : List (Str × List Str) := [
  ("frontend".data, ["frontend".data, "front-end".data, "react".data, "vue".data,
    "angular".data, "javascript".data, "html".data, "css".data]),
  ("backend".data, ["backend".data, "back-end".data, "api".data, "server".data,
    "database".data, "python".data, "java".data, "node".data]),
  ("fullstack".data, ["fullstack".data, "full-stack".data, "full stack".data]),
  ("devops".data, ["devops".data, "infrastructure".data, "aws".data, "docker".data,
    "kubernetes".data, "ci/cd".data]),
  ("data".data, ["data science".data, "machine learning".data, "analytics".data,
    "python".data, "sql".data, "statistics".data]),
  ("mobile".data, ["mobile".data, "ios".data, "android".data, "react native".data,
    "flutter".data, "swift".data, "kotlin".data])]

/-- Maximum of a list of rationals (callers pass non-empty lists). -/
def qmax : List ℚ → ℚ
  | [] => 0
  | x :: xs => xs.foldl max x

/-- The per-bucket ratios `resume_match_count / len(keywords)` for the
buckets with at least one job-description keyword hit. -/
def jobTypeRatios (jdl rl : Str) : List ℚ :=
  JOB_TYPES.filterMap (fun p =>
    if 0 < p.2.countP (fun kw => isSubstr kw jdl)
    then some ((p.2.countP (fun kw => isSubstr kw rl) : ℚ) / (p.2.length : ℚ))
    else none)

/-- `relevance_score`: 0.5 if no bucket matched the job description,
otherwise `min(1, max(bucket ratios) + 0.3)`. -/
def relevance_score (jdl rl : Str) : ℚ :=
  if (jobTypeRatios jdl rl).isEmpty then 1/2
  else min 1 (qmax (jobTypeRatios jdl rl) + 3/10)

/-- C6: whenever none of the six impact-indicator patterns matches the
resume text, the impact score is `min(0.4, 0.05 * N)`, where `N` counts
how many of the nine fixed action verbs occur in the lower-cased text
as substrings (the source counts each verb at most once). -/
theorem scoring_C6 (text : Str) (h : impactCount text = 0) :
    impact_score text = min (2/5) ((actionVerbCount text : ℚ) * (1/20)) := by
  unfold impact_score
  rw [h]
  norm_num

/-- Witness for C6: the digit-free text "developed built" has no impact
matches, two action verbs, and impact score min(0.4, 0.1) = 0.1. -/
theorem scoring_C6_witness :
    impactCount ("developed built".data) = 0 ∧
      actionVerbCount ("developed built".data) = 2 ∧
      impact_score ("developed built".data) = 1/10 := by
  have h0 : impactCount ("developed built".data) = 0 := by decide
  have h2 : actionVerbCount ("developed built".data) = 2 := by decide
  refine ⟨h0, h2, ?_⟩
  rw [scoring_C6 _ h0, h2]
  norm_num

/-! ## difflib.SequenceMatcher — `fuzzy_match_score`

`fuzzy_match_score` returns `SequenceMatcher(None, a.lower(),
b.lower()).ratio()`.  The embedding below follows CPython's difflib:
`b2j` with the autojunk popularity filter (`isjunk=None`, so the junk
set is empty and the two junk extension loops of `find_longest_match`
are no-ops), the quadratic longest-match loop with strict-improvement
updates, the two non-junk extension loops, and the recursive
matching-block decomposition whose sizes `ratio` sums. -/

/-- Positions of `c` in `b`, ascending (difflib's `b2j` before the
popularity filter). -/
def b2jAll (b : Str) (c : Char) : List ℕ :=
  (List.range b.length).filter (fun i => b.get? i = some c)

/-- difflib's autojunk rule: for `len(b) >= 200`, characters occurring
more than `len(b) // 100 + 1` times are "popular" and dropped from
`b2j`. -/
def popularB (b : Str) (c : Char) : Bool :=
  200 ≤ b.length && b.length / 100 + 1 < (b2jAll b c).length

def b2j (b : Str) (c : Char) : List ℕ :=
  if popularB b c then [] else b2jAll b c

/-- The running `(besti, bestj, bestsize)` of `find_longest_match`. -/
structure Best where
  bi : ℕ
  bj : ℕ
  bs : ℕ
  deriving DecidableEq

/-- `j2len.get(j, 0)`. -/
def j2get (m : List (ℕ × ℕ)) (j : ℕ) : ℕ :=
  match m.find? (fun p => p.1 = j) with
  | some p => p.2
  | none => 0

/-- Inner loop of `find_longest_match` over the ascending list
`b2j[a[i]]`, with Python's `continue` below `blo` and `break` at `bhi`;
builds the new row (`newj2len`) and improves the best only strictly. -/
def flmInner (i blo bhi : ℕ) (old : List (ℕ × ℕ)) :
    List ℕ → Best → List (ℕ × ℕ) → Best × List (ℕ × ℕ)
  | [], st, acc => (st, acc)
  | j :: rest, st, acc =>
    if j < blo then flmInner i blo bhi old rest st acc
    else if bhi ≤ j then (st, acc)
    else
      let k := (if j = 0 then 0 else j2get old (j - 1)) + 1
      let st' := if st.bs < k then ⟨i + 1 - k, j + 1 - k, k⟩ else st
      flmInner i blo bhi old rest st' ((j, k) :: acc)

/-- Outer loop of `find_longest_match` over `i ∈ range(alo, ahi)`. -/
def flmOuter (a b : Str) (blo bhi : ℕ) :
    List ℕ → Best → List (ℕ × ℕ) → Best
  | [], st, _ => st
  | i :: rest, st, row =>
    let r := flmInner i blo bhi row (b2j b (a.getD i ' ')) st []
    flmOuter a b blo bhi rest r.1 r.2

/-- The main quadratic loop of `find_longest_match`. -/
def flmMain (a b : Str) (alo ahi blo bhi : ℕ) : Best :=
  flmOuter a b blo bhi (List.range' alo (ahi - alo)) ⟨alo, blo, 0⟩ []

/-- Backward extension loop (the junk conditions vanish: `bjunk` is
empty because `isjunk=None`).  The fuel `st.bi` bounds the number of
decrements. -/
def extBack (a b : Str) (alo blo : ℕ) : ℕ → Best → Best
  | 0, st => st
  | f + 1, st =>
    if alo < st.bi && blo < st.bj &&
        (a.getD (st.bi - 1) ' ' = b.getD (st.bj - 1) ' ') then
      extBack a b alo blo f ⟨st.bi - 1, st.bj - 1, st.bs + 1⟩
    else st

/-- Forward extension loop; the fuel `ahi - (bi + bs)` bounds the
number of increments. -/
def extFwd (a b : Str) (ahi bhi : ℕ) : ℕ → Best → Best
  | 0, st => st
  | f + 1, st =>
    if st.bi + st.bs < ahi && st.bj + st.bs < bhi &&
        (a.getD (st.bi + st.bs) ' ' = b.getD (st.bj + st.bs) ' ') then
      extFwd a b ahi bhi f ⟨st.bi, st.bj, st.bs + 1⟩
    else st

/-- `find_longest_match(alo, ahi, blo, bhi)`. -/
def flm (a b : Str) (alo ahi blo bhi : ℕ) : Best :=
  let st := flmMain a b alo ahi blo bhi
  let st2 := extBack a b alo blo st.bi st
  extFwd a b ahi bhi (ahi - (st2.bi + st2.bs)) st2

/-- Total size of the matching blocks of `get_matching_blocks` on a
window (Python's queue recursion written as structural recursion on a
depth fuel; each sub-window is strictly smaller in the `a` direction
once a non-empty block is found, so fuel `len(a) + 1` is enough at the
top). -/
def msum (a b : Str) : ℕ → ℕ → ℕ → ℕ → ℕ → ℕ
  | 0, _, _, _, _ => 0
  | f + 1, alo, ahi, blo, bhi =>
    let t := flm a b alo ahi blo bhi
    if t.bs = 0 then 0
    else msum a b f alo t.bi blo t.bj + t.bs +
      msum a b f (t.bi + t.bs) ahi (t.bj + t.bs) bhi

/-- `SequenceMatcher(None, a, b).ratio() = 2 * M / (len(a) + len(b))`,
and 1.0 for two empty sequences. -/
def ratioOf (a b : Str) : ℚ :=
  if a.length + b.length = 0 then 1
  else 2 * (msum a b (a.length + 1) 0 a.length 0 b.length : ℚ) /
    ((a.length : ℚ) + (b.length : ℚ))

/-- `fuzzy_match_score` of src/skills.py. -/
def fuzzy_match_score (t1 t2 : Str) : ℚ := ratioOf (lcStr t1) (lcStr t2)

lemma msum_tide_diet :
    msum ("tide".data) ("diet".data) (("tide".data).length + 1)
      0 ("tide".data).length 0 ("diet".data).length = 1 := by decide

lemma msum_diet_tide :
    msum ("diet".data) ("tide".data) (("diet".data).length + 1)
      0 ("diet".data).length 0 ("tide".data).length = 2 := by decide

/-- C8 (counterexample): the fuzzy similarity is not symmetric.
`ratio` first matches the 't' of "tide" with the final 't' of "diet",
leaving nothing else matchable (ratio 1/4); in the other order it
matches 'd' and then 'e' (ratio 1/2).  This mirrors
`difflib.SequenceMatcher(None, "tide", "diet").ratio() == 0.25` versus
`0.5` for the swapped arguments. -/
theorem skills_C8_counterexample :
    fuzzy_match_score ("tide".data) ("diet".data) ≠
      fuzzy_match_score ("diet".data) ("tide".data) := by
  have e1 : lcStr ("tide".data) = "tide".data := by decide
  have e2 : lcStr ("diet".data) = "diet".data := by decide
  unfold fuzzy_match_score ratioOf
  rw [e1, e2,
    if_neg (by decide : ¬(("tide".data).length + ("diet".data).length = 0)),
    if_neg (by decide : ¬(("diet".data).length + ("tide".data).length = 0)),
    msum_tide_diet, msum_diet_tide,
    (by decide : ("tide".data).length = 4), (by decide : ("diet".data).length = 4)]
  norm_num

/-! ## src/skills.py : create_skill_variants and find_skill_matches -/

/-- `set.add`: Python's variant set is modelled as an insertion-ordered
de-duplicated list.  (CPython's set iteration order is unspecified; the
matcher uses the set only through order-insensitive maxima and the
bounded, order-insensitive facts verified below.) -/
def addVar (l : List Str) (x : Str) : List Str :=
  if x ∈ l then l else l ++ [x]

def addVars (l : List Str) (xs : List Str) : List Str := xs.foldl addVar l

/-- `create_skill_variants` of src/skills.py. -/
def create_skill_variants (skill : Str) : List Str :=
  let n := normalize_skill skill
  let v1 := addVar (addVar [] n) (stripWS (lcStr skill))
  let v2 :=
    if (SKILL_ALIASES.find? (fun p => p.1 = n)).isSome
    then addVars v1 (aliasListOf n) else v1
  if ' ' ∈ n then
    addVar (addVar (addVar v2 (n.filter (fun c => !(c = ' '))))
        (n.map (fun c => if c = ' ' then '.' else c)))
      (n.map (fun c => if c = ' ' then '-' else c))
  else v2

/-- Non-overlapping occurrence start positions of `pat` in `text`
(`re.finditer(re.escape(pat), text)`), scanning left to right; an empty
pattern matches (zero-width) at every position, as in Python. -/
def occsFrom (pat text : Str) : ℕ → ℕ → List ℕ
  | 0, _ => []
  | f + 1, pos =>
    if text.length < pos then []
    else if sStarts pat (text.drop pos) then
      pos :: occsFrom pat text f (pos + max pat.length 1)
    else occsFrom pat text f (pos + 1)

def occs (pat text : Str) : List ℕ := occsFrom pat text (text.length + 2) 0

/-- The evidence window for a match spanning `[st, en)`:
`resume_text[max(0, st - 30) : min(len, en + 30)].strip()`. -/
def snippetAt (orig : Str) (st en : ℕ) : Str :=
  stripWS ((orig.take (min orig.length (en + 30))).drop (st - 30))

/-- Step 1 of the per-skill loop: a variant appearing as a substring of
the lower-cased resume text raises the best score to 1.0 and collects
one evidence window per occurrence. -/
def subStep (variants : List Str) (rtl orig : Str) : ℚ × List Str :=
  variants.foldl
    (fun acc v =>
      if isSubstr v rtl then
        (max acc.1 1,
          acc.2 ++ (occs v rtl).map (fun p => snippetAt orig p (p + v.length)))
      else acc)
    (0, [])

/-- Step 2: cross-matching JD variants against the variants of every
extracted resume skill; equality gives 1.0, and a fuzzy ratio ≥ 0.85
raises the best score to that ratio. -/
def crossStep (jdVars : List Str) (resume_skills : List Str) (s0 : ℚ) : ℚ :=
  resume_skills.foldl
    (fun s1 rs =>
      let rvs := create_skill_variants rs
      jdVars.foldl
        (fun s2 jv =>
          rvs.foldl
            (fun s3 rv =>
              if jv = rv then max s3 1
              else
                let fz := fuzzy_match_score jv rv
                if 85/100 ≤ fz then max s3 fz else s3)
            s2)
        s1)
    s0

/-- Step 3: the partial multi-word overlap fallback, entered only while
the running best score is below 0.5; word sets are Python `set`s, so
counts are of distinct tokens. -/
def partialStep (jd : Str) (rtl : Str) (s : ℚ) : ℚ :=
  if s < 1/2 then
    let jdW := (splitWS (lcStr jd)).dedup
    let rW := (splitWS rtl).dedup
    if 1 < jdW.length then
      let inter := jdW.filter (fun w => w ∈ rW)
      if ((jdW.length : ℚ)) * (3/5) ≤ (inter.length : ℚ) then
        max s ((inter.length : ℚ) / (jdW.length : ℚ) * (7/10))
      else s
    else s
  else s

/-- Best-match confidence together with the (unclipped) evidence
snippets for one JD skill. -/
def skillBest (jd : Str) (resume_text : Str) (resume_skills : List Str) :
    ℚ × List Str :=
  let rtl := lcStr resume_text
  let vars := create_skill_variants jd
  let s1 := subStep vars rtl resume_text
  (partialStep jd rtl (crossStep vars resume_skills s1.1), s1.2)

/-- The final best-match confidence of one JD skill against the resume
text and the extracted resume skills. -/
def bestScore (jd : Str) (resume_text : Str) (resume_skills : List Str) : ℚ :=
  (skillBest jd resume_text resume_skills).1

/-- The record returned by `find_skill_matches`. -/
structure SkillMatchResult where
  matched_skills : List Str
  skill_evidence : List (Str × List Str)
  confidence_scores : List (Str × ℚ)
  total_jd_skills : ℕ
  match_rate : ℚ

/-- Python dict assignment `d[k] = v`: overwrite in place if the key
exists, otherwise append. -/
def dinsert {α : Type} (d : List (Str × α)) (k : Str) (v : α) :
    List (Str × α) :=
  if d.any (fun p => p.1 = k) then
    d.map (fun p => if p.1 = k then (k, v) else p)
  else d ++ [(k, v)]

/-- One iteration of the `for jd_skill in jd_skills` loop of
`find_skill_matches`: a skill is recorded iff its best score reaches
0.5, with the evidence clipped to the first three snippets. -/
def fsmStep (resume_text : Str) (resume_skills : List Str)
    (acc : List Str × List (Str × List Str) × List (Str × ℚ)) (jd : Str) :
    List Str × List (Str × List Str) × List (Str × ℚ) :=
  if 1/2 ≤ (skillBest jd resume_text resume_skills).1 then
    (acc.1 ++ [jd],
      dinsert acc.2.1 jd ((skillBest jd resume_text resume_skills).2.take 3),
      dinsert acc.2.2 jd (skillBest jd resume_text resume_skills).1)
  else acc

/-- `find_skill_matches` of src/skills.py. -/
def find_skill_matches (jd_skills : List Str) (resume_text : Str)
    (resume_skills : List Str) : SkillMatchResult :=
  let t := jd_skills.foldl (fsmStep resume_text resume_skills) ([], [], [])
  { matched_skills := t.1
    skill_evidence := t.2.1
    confidence_scores := t.2.2
    total_jd_skills := jd_skills.length
    match_rate := (t.1.length : ℚ) / ((max 1 jd_skills.length : ℕ) : ℚ) }

lemma fsm_fold_matched (rt : Str) (rs : List Str) (l : List Str) :
    ∀ acc, (l.foldl (fsmStep rt rs) acc).1 =
      acc.1 ++ l.filter (fun j => decide ((1:ℚ)/2 ≤ bestScore j rt rs)) := by
  induction l with
  | nil => intro acc; simp
  | cons x xs ih =>
    intro acc
    rw [List.foldl_cons, ih, List.filter_cons]
    by_cases h : (1:ℚ)/2 ≤ (skillBest x rt rs).1
    · rw [if_pos (decide_eq_true (p := (1:ℚ)/2 ≤ bestScore x rt rs) h)]
      unfold fsmStep
      rw [if_pos h]
      simp
    · have hd : ¬(decide ((1:ℚ)/2 ≤ bestScore x rt rs) = true) := by
        rw [decide_eq_false (p := (1:ℚ)/2 ≤ bestScore x rt rs) h]
        exact Bool.false_ne_true
      rw [if_neg hd]
      unfold fsmStep
      rw [if_neg h]

lemma dinsert_mem {α : Type} (d : List (Str × α)) (k : Str) (v : α) :
    ∀ p ∈ dinsert d k v, p ∈ d ∨ p.2 = v := by
  intro p hp
  unfold dinsert at hp
  split at hp
  · rcases List.mem_map.mp hp with ⟨q, hq, hpq⟩
    by_cases hk : q.1 = k
    · right; rw [← hpq, if_pos hk]
    · left; rw [← hpq, if_neg hk]; exact hq
  · rcases List.mem_append.mp hp with h | h
    · exact Or.inl h
    · right; rw [List.mem_singleton.mp h]

lemma fsm_fold_ev (rt : Str) (rs : List Str) (l : List Str) :
    ∀ acc, (∀ p ∈ acc.2.1, p.2.length ≤ 3) →
      ∀ p ∈ (l.foldl (fsmStep rt rs) acc).2.1, p.2.length ≤ 3 := by
  induction l with
  | nil => intro acc hacc; simpa using hacc
  | cons x xs ih =>
    intro acc hacc
    rw [List.foldl_cons]
    refine ih _ ?_
    unfold fsmStep
    split
    · intro p hp
      rcases dinsert_mem _ _ _ p hp with h | h
      · exact hacc p h
      · rw [h, List.length_take]
        exact min_le_left _ _
    · exact hacc

lemma fsm_matched_eq (jd_skills : List Str) (rt : Str) (rs : List Str) :
    (find_skill_matches jd_skills rt rs).matched_skills =
      jd_skills.filter (fun j => decide ((1:ℚ)/2 ≤ bestScore j rt rs)) := by
  show (jd_skills.foldl (fsmStep rt rs) ([], [], [])).1 = _
  rw [fsm_fold_matched]
  simp

/-- C1: for every matcher input, a JD skill is listed in
`matched_skills` iff its final best-match confidence is ≥ 0.5; the
matched list is a sublist of the JD skill list (so it preserves the
caller's iteration order); and every recorded evidence list holds at
most 3 snippets. -/
theorem skills_C1 (jd_skills : List Str) (resume_text : Str)
    (resume_skills : List Str) (s : Str) (hs : s ∈ jd_skills) :
    (s ∈ (find_skill_matches jd_skills resume_text resume_skills).matched_skills ↔
      1/2 ≤ bestScore s resume_text resume_skills) ∧
      (find_skill_matches jd_skills resume_text resume_skills).matched_skills.Sublist
        jd_skills ∧
      (∀ p ∈ (find_skill_matches jd_skills resume_text resume_skills).skill_evidence,
        p.2.length ≤ 3) := by
  refine ⟨?_, ?_, ?_⟩
  · rw [fsm_matched_eq, List.mem_filter]
    simp [hs]
  · rw [fsm_matched_eq]
    exact List.filter_sublist _
  · exact fsm_fold_ev resume_text resume_skills jd_skills ([], [], [])
      (by intro p hp; simp at hp) 

/-- Witness for C1 at the concrete input jd = ["python"],
resume text "python", no extracted resume skills. -/
theorem skills_C1_witness :
    ("python".data ∈
        (find_skill_matches ["python".data] ("python".data) []).matched_skills ↔
      1/2 ≤ bestScore ("python".data) ("python".data) []) ∧
      (find_skill_matches ["python".data] ("python".data) []).matched_skills.Sublist
        ["python".data] ∧
      (∀ p ∈ (find_skill_matches ["python".data] ("python".data) []).skill_evidence,
        p.2.length ≤ 3) :=
  skills_C1 ["python".data] ("python".data) [] ("python".data) (by decide)

/-- C7: `match_rate` always equals `matched_count / max(1, total)` and
lies in [0, 1]; an empty JD skill list gives rate 0 with no division
error (the model divides by the positive `max 1 total`). -/
theorem skills_C7 (jd_skills : List Str) (resume_text : Str)
    (resume_skills : List Str) :
    ((find_skill_matches jd_skills resume_text resume_skills).match_rate =
      ((find_skill_matches jd_skills resume_text resume_skills).matched_skills.length : ℚ) /
        ((max 1 jd_skills.length : ℕ) : ℚ)) ∧
      0 ≤ (find_skill_matches jd_skills resume_text resume_skills).match_rate ∧
      (find_skill_matches jd_skills resume_text resume_skills).match_rate ≤ 1 ∧
      (jd_skills = [] →
        (find_skill_matches jd_skills resume_text resume_skills).match_rate = 0) := by
  have hlen : (find_skill_matches jd_skills resume_text resume_skills).matched_skills.length ≤
      jd_skills.length := by
    rw [fsm_matched_eq]
    exact List.length_filter_le _ _
  have hden : (0:ℚ) < ((max 1 jd_skills.length : ℕ) : ℚ) := by
    have : (1:ℕ) ≤ max 1 jd_skills.length := le_max_left _ _
    exact_mod_cast Nat.lt_of_lt_of_le Nat.zero_lt_one this
  refine ⟨rfl, ?_, ?_, ?_⟩
  · exact div_nonneg (by positivity) (le_of_lt hden)
  · rw [show (find_skill_matches jd_skills resume_text resume_skills).match_rate =
        ((find_skill_matches jd_skills resume_text resume_skills).matched_skills.length : ℚ) /
          ((max 1 jd_skills.length : ℕ) : ℚ) from rfl]
    rw [div_le_one hden]
    have : ((find_skill_matches jd_skills resume_text resume_skills).matched_skills.length : ℚ) ≤
        (jd_skills.length : ℚ) := by exact_mod_cast hlen
    have h2 : ((jd_skills.length : ℕ) : ℚ) ≤ ((max 1 jd_skills.length : ℕ) : ℚ) := by
      exact_mod_cast le_max_right 1 jd_skills.length
    linarith
  · intro h
    subst h
    show ((([] : List Str).foldl (fsmStep resume_text resume_skills) ([], [], [])).1.length : ℚ) /
        ((max 1 ([] : List Str).length : ℕ) : ℚ) = 0
    norm_num

/-- Witness for C7 (discharging the empty-list implication at the
concrete all-empty input). -/
theorem skills_C7_witness :
    (find_skill_matches [] [] []).match_rate = 0 :=
  (skills_C7 [] [] []).2.2.2 rfl

/-! ## src/scoring.py : compute_enhanced_component_scores -/

/-- The `experience_keywords` list of the skill-context loop. -/
def EXPERIENCE_KEYWORDS : List Str :=
  ["experience".data, "worked".data, "developed".data, "built".data,
   "created".data, "managed".data, "led".data, "implemented".data]

/-- The record returned by `compute_enhanced_component_scores` (its
Python dict: seven scores, the pass-through matcher fields, the
experience estimates, and the flattened `match_statistics`). -/
structure ComponentOut where
  skill_match_score : ℚ
  skill_context_score : ℚ
  experience_duration_score : ℚ
  impact_score : ℚ
  project_score : ℚ
  education_score : ℚ
  relevance_score : ℚ
  matched_skills : List Str
  skill_evidence : List (Str × List Str)
  confidence_scores : List (Str × ℚ)
  years_experience_estimate : ℚ
  technical_years_estimate : ℚ
  total_jd_skills : ℕ
  skills_matched : ℕ
  skills_with_evidence : ℕ
  average_confidence : ℚ
  impact_indicators_found : ℕ

/-- `d.get(k, 0)` on a numeric dict. -/
def getQ (d : List (Str × ℚ)) (k : Str) : ℚ :=
  (((d.find? (fun p => p.1 = k)).map Prod.snd).getD 0)

/-- `sum(d.values())`. -/
def sumConf (cf : List (Str × ℚ)) : ℚ := (cf.map Prod.snd).sum

/-- `skills_with_context`: matched skills one of whose evidence snippets
contains an experience keyword (case-insensitive substring test). -/
def skillsWithContext (sa : SkillMatchResult) : ℕ :=
  sa.matched_skills.countP (fun sk =>
    (((sa.skill_evidence.find? (fun p => p.1 = sk)).map Prod.snd).getD []).any
      (fun sn => EXPERIENCE_KEYWORDS.any (fun kw => isSubstr kw (lcStr sn))))

/-- `compute_enhanced_component_scores` of src/scoring.py. -/
def compute_enhanced_component_scores (job_desc resume_text : Str)
    (jd_skills resume_skills : List Str) (experience_data : List (Str × ℚ)) :
    ComponentOut :=
  let sa := find_skill_matches jd_skills resume_text resume_skills
  let cws : ℚ :=
    if sa.confidence_scores.isEmpty then 0
    else if 0 < sumConf sa.confidence_scores then
      sumConf sa.confidence_scores / (jd_skills.length : ℚ)
    else 0
  let tm := sa.matched_skills.length
  let technical_years := getQ experience_data ("technical_years_experience".data)
  { skill_match_score := min 1 (sa.match_rate * (7/10) + cws * (3/10))
    skill_context_score :=
      if 0 < tm then (skillsWithContext sa : ℚ) / ((max 1 tm : ℕ) : ℚ) else 0
    experience_duration_score := experience_duration_score technical_years
    impact_score := impact_score resume_text
    project_score := project_score resume_text
    education_score := education_score (lcStr resume_text)
    relevance_score := relevance_score (lcStr job_desc) (lcStr resume_text)
    matched_skills := sa.matched_skills
    skill_evidence := sa.skill_evidence
    confidence_scores := sa.confidence_scores
    years_experience_estimate := getQ experience_data ("total_years_experience".data)
    technical_years_estimate := technical_years
    total_jd_skills := jd_skills.length
    skills_matched := sa.matched_skills.length
    skills_with_evidence := (sa.skill_evidence.filter (fun p => !p.2.isEmpty)).length
    average_confidence :=
      sumConf sa.confidence_scores / ((max 1 sa.confidence_scores.length : ℕ) : ℚ)
    impact_indicators_found := impactCount resume_text }

/-- The numeric top-level entries of the dict returned by
`compute_enhanced_component_scores`, in source key order.  The
aggregator reads the dict only through the weight-table keys and the
numeric `endswith("_score")` filter, and the dict's non-numeric entries
(lists / nested dicts) pass neither, so this numeric projection is what
`aggregate_enhanced_scores` observes. -/
def componentDict (o : ComponentOut) : List (Str × ℚ) := [
  ("skill_match_score".data, o.skill_match_score),
  ("skill_context_score".data, o.skill_context_score),
  ("experience_duration_score".data, o.experience_duration_score),
  ("impact_score".data, o.impact_score),
  ("project_score".data, o.project_score),
  ("education_score".data, o.education_score),
  ("relevance_score".data, o.relevance_score),
  ("years_experience_estimate".data, o.years_experience_estimate),
  ("technical_years_estimate".data, o.technical_years_estimate),
  ("total_jd_skills".data, (o.total_jd_skills : ℚ))]

/-! ## C10 : the aggregate has no lower clamp -/

/-- An experience summary reporting −2 technical years (well-typed:
numeric values, arbitrary sign). -/
def expNeg : List (Str × ℚ) := [("technical_years_experience".data, -2)]

lemma fsm_empty : find_skill_matches [] [] [] = ⟨[], [], [], 0, 0⟩ := by
  unfold find_skill_matches
  simp [SkillMatchResult.mk.injEq]

lemma impact_empty : impact_score [] = 0 := by
  have h0 : impactCount [] = 0 := by decide
  have hA : actionVerbCount [] = 0 := by decide
  unfold impact_score
  rw [h0, hA]
  norm_num

lemma project_empty : project_score [] = 0 := by
  have h0 : projectREs.countP (fun r => reSearch r []) = 0 := by decide
  unfold project_score
  rw [h0]
  norm_num

lemma education_empty : education_score [] = 3/10 := by
  have h : EDUCATION_INDICATORS.find? (fun p => isSubstr p.1 []) = none := by decide
  unfold education_score
  rw [h]

lemma relevance_empty : relevance_score [] [] = 1/2 := by
  have h : jobTypeRatios [] [] = [] := by decide
  unfold relevance_score
  rw [h]
  simp

lemma getQ_total_expNeg : getQ expNeg ("total_years_experience".data) = 0 := by
  simp +decide [getQ, expNeg, List.find?]

lemma getQ_tech_expNeg : getQ expNeg ("technical_years_experience".data) = -2 := by
  simp +decide [getQ, expNeg, List.find?]

/-- The numeric component dict of the scorer on empty texts, empty skill
lists, and −2 technical years. -/
def cs10 : List (Str × ℚ) := [
  ("skill_match_score".data, 0),
  ("skill_context_score".data, 0),
  ("experience_duration_score".data, -4/5),
  ("impact_score".data, 0),
  ("project_score".data, 0),
  ("education_score".data, 3/10),
  ("relevance_score".data, 1/2),
  ("years_experience_estimate".data, 0),
  ("technical_years_estimate".data, -2),
  ("total_jd_skills".data, 0)]

lemma compute_c10 :
    componentDict (compute_enhanced_component_scores [] [] [] [] expNeg) = cs10 := by
  unfold compute_enhanced_component_scores componentDict cs10
  rw [fsm_empty, getQ_total_expNeg, getQ_tech_expNeg]
  simp only [lcStr, List.map_nil]
  rw [impact_empty, project_empty, education_empty, relevance_empty]
  norm_num [sumConf, experience_duration_score, impactCount, reCountAll]

lemma raw_cs10 : rawTotal cs10 = -2/25 := by
  simp +decide [rawTotal, WEIGHTS, cs10, lookupV, List.find?]
  norm_num

lemma dens_cs10 : densityCount cs10 = 1 := by
  have a1 : ¬((3:ℚ)/10 < 0) := by norm_num
  have a2 : ¬((3:ℚ)/10 < -4/5) := by norm_num
  have a3 : ¬((3:ℚ)/10 < 3/10) := by norm_num
  have a4 : (3:ℚ)/10 < 1/2 := by norm_num
  have a5 : (3:ℚ)/10 < 2⁻¹ := by norm_num
  simp +decide [densityCount, scoreComponents, cs10, sEndsWith, sStarts, List.countP,
    List.countP.go, decide_eq_true a4, decide_eq_true a5, decide_eq_false a1,
    decide_eq_false a2, decide_eq_false a3]

lemma adj_cs10 : adjTotal cs10 = -9/125 := by
  rw [adjTotal, raw_cs10, dens_cs10]
  norm_num

/-- C10: the final score is clamped only from above
(`score_0_100 = round(min(100, adjusted_total * 100), 1)` — there is no
lower clamp at 0), so a well-typed input with −2 technical years of
experience and otherwise empty inputs produces the negative scores
−7.2 and −0.72. -/
theorem scoring_C10 :
    (∀ cs, (aggregate_enhanced_scores cs).score_0_100 =
      pyRound (min 100 (adjTotal cs * 100)) 1) ∧
      (aggregate_enhanced_scores (componentDict
        (compute_enhanced_component_scores [] [] [] [] expNeg))).score_0_100 = -(36/5) ∧
      (aggregate_enhanced_scores (componentDict
        (compute_enhanced_component_scores [] [] [] [] expNeg))).score_0_100 < 0 ∧
      (aggregate_enhanced_scores (componentDict
        (compute_enhanced_component_scores [] [] [] [] expNeg))).score_0_10 = -(18/25) ∧
      (aggregate_enhanced_scores (componentDict
        (compute_enhanced_component_scores [] [] [] [] expNeg))).score_0_10 < 0 := by
  have hmin : min (100:ℚ) (-9/125 * 100) = -36/5 := by norm_num
  have h100 : (aggregate_enhanced_scores (componentDict
      (compute_enhanced_component_scores [] [] [] [] expNeg))).score_0_100 = -(36/5) := by
    show pyRound _ _ = _
    rw [compute_c10, adj_cs10, hmin]
    norm_num [pyRound, bankersInt]
  have h10 : (aggregate_enhanced_scores (componentDict
      (compute_enhanced_component_scores [] [] [] [] expNeg))).score_0_10 = -(18/25) := by
    show pyRound _ _ = _
    rw [compute_c10, adj_cs10, hmin]
    norm_num [pyRound, bankersInt]
  exact ⟨fun cs => rfl, h100, by rw [h100]; norm_num, h10, by rw [h10]; norm_num⟩

/-! ## C9 : the core never raises on well-typed inputs

Fallible operations are made explicit: `pydiv` mirrors Python division
(raising `ZeroDivisionError` on a zero denominator), and the matcher and
scorer are re-expressed in the `Except` monad with a `pydiv` at every
division site of the source.  The claim is settled by proving these
error-aware versions always return `.ok` of the pure model. -/

/-- Python division: `ZeroDivisionError` on a zero denominator. -/
def pydiv (a b : ℚ) : Except String ℚ :=
  if b = 0 then .error "division by zero" else .ok (a / b)

lemma pydiv_ok (a b : ℚ) (h : b ≠ 0) : pydiv a b = .ok (a / b) := by
  unfold pydiv
  rw [if_neg h]

lemma ok_bind {α β : Type} (a : α) (f : α → Except String β) :
    (Except.ok (ε := String) a).bind f = f a := rfl

/-- `find_skill_matches` step 3 with the division made explicit. -/
def partialStepE (jd : Str) (rtl : Str) (s : ℚ) : Except String ℚ :=
  if s < 1/2 then
    if 1 < ((splitWS (lcStr jd)).dedup).length then
      if ((((splitWS (lcStr jd)).dedup).length : ℚ)) * (3/5) ≤
          (((((splitWS (lcStr jd)).dedup).filter
            (fun w => w ∈ (splitWS rtl).dedup)).length : ℚ)) then
        (pydiv ((((splitWS (lcStr jd)).dedup).filter
            (fun w => w ∈ (splitWS rtl).dedup)).length : ℚ)
            ((((splitWS (lcStr jd)).dedup).length : ℚ))).map
          (fun q => max s (q * (7/10)))
      else .ok s
    else .ok s
  else .ok s

lemma partialStepE_ok (jd rtl : Str) (s : ℚ) :
    partialStepE jd rtl s = .ok (partialStep jd rtl s) := by
  simp only [partialStepE, partialStep]
  split_ifs with h1 h2 h3
  · have hne : ((((splitWS (lcStr jd)).dedup).length : ℕ) : ℚ) ≠ 0 := by
      have : (0:ℕ) < ((splitWS (lcStr jd)).dedup).length := by omega
      exact_mod_cast Nat.pos_iff_ne_zero.mp this
    rw [pydiv_ok _ _ hne]
    rfl
  all_goals rfl

/-- `find_skill_matches` per-skill confidence with divisions explicit. -/
def skillBestE (jd : Str) (resume_text : Str) (resume_skills : List Str) :
    Except String (ℚ × List Str) :=
  (partialStepE jd (lcStr resume_text)
      (crossStep (create_skill_variants jd) resume_skills
        (subStep (create_skill_variants jd) (lcStr resume_text) resume_text).1)).map
    (fun s3 => (s3, (subStep (create_skill_variants jd) (lcStr resume_text) resume_text).2))

lemma skillBestE_ok (jd rt : Str) (rs : List Str) :
    skillBestE jd rt rs = .ok (skillBest jd rt rs) := by
  unfold skillBestE skillBest
  rw [partialStepE_ok]
  rfl

/-- One matcher-loop iteration with divisions explicit. -/
def fsmStepE (resume_text : Str) (resume_skills : List Str)
    (acc : List Str × List (Str × List Str) × List (Str × ℚ)) (jd : Str) :
    Except String (List Str × List (Str × List Str) × List (Str × ℚ)) :=
  (skillBestE jd resume_text resume_skills).bind (fun r =>
    if 1/2 ≤ r.1 then
      .ok (acc.1 ++ [jd], dinsert acc.2.1 jd (r.2.take 3), dinsert acc.2.2 jd r.1)
    else .ok acc)

lemma fsmStepE_ok (rt : Str) (rs : List Str) (acc) (jd : Str) :
    fsmStepE rt rs acc jd = .ok (fsmStep rt rs acc jd) := by
  unfold fsmStepE fsmStep
  rw [skillBestE_ok, ok_bind]
  split_ifs <;> rfl

/-- `find_skill_matches` with its divisions explicit. -/
def find_skill_matchesE (jd_skills : List Str) (resume_text : Str)
    (resume_skills : List Str) : Except String SkillMatchResult :=
  (jd_skills.foldlM (fsmStepE resume_text resume_skills) ([], [], [])).bind (fun t =>
    (pydiv (t.1.length : ℚ) ((max 1 jd_skills.length : ℕ) : ℚ)).bind (fun mr =>
      .ok ⟨t.1, t.2.1, t.2.2, jd_skills.length, mr⟩))

lemma foldM_fsm_ok (rt : Str) (rs : List Str) (l : List Str) :
    ∀ acc, l.foldlM (fsmStepE rt rs) acc = .ok (l.foldl (fsmStep rt rs) acc) := by
  induction l with
  | nil => intro acc; rfl
  | cons x xs ih =>
    intro acc
    rw [List.foldlM_cons, fsmStepE_ok, List.foldl_cons]
    show (Except.ok (fsmStep rt rs acc x)).bind _ = _
    rw [ok_bind, ih]

lemma fsmE_ok (jd_skills : List Str) (rt : Str) (rs : List Str) :
    find_skill_matchesE jd_skills rt rs = .ok (find_skill_matches jd_skills rt rs) := by
  unfold find_skill_matchesE find_skill_matches
  rw [foldM_fsm_ok, ok_bind]
  have hne : (((max 1 jd_skills.length : ℕ)) : ℚ) ≠ 0 := by
    have : (0:ℕ) < max 1 jd_skills.length := lt_of_lt_of_le Nat.zero_lt_one (le_max_left _ _)
    exact_mod_cast Nat.pos_iff_ne_zero.mp this
  rw [pydiv_ok _ _ hne, ok_bind]

/-- `confidence_weighted_score` with its division explicit (evaluated
only when `total_weight > 0`, under `if confidence_scores:`). -/
def cwsE (sa : SkillMatchResult) (jd_skills : List Str) : Except String ℚ :=
  if sa.confidence_scores.isEmpty then .ok 0
  else if 0 < sumConf sa.confidence_scores then
    pydiv (sumConf sa.confidence_scores) (jd_skills.length : ℚ)
  else .ok 0

/-- `skill_context_score` with its division explicit. -/
def contextE (sa : SkillMatchResult) : Except String ℚ :=
  if 0 < sa.matched_skills.length then
    pydiv (skillsWithContext sa : ℚ) ((max 1 sa.matched_skills.length : ℕ) : ℚ)
  else .ok 0

/-- One relevance bucket with its division explicit. -/
def bucketRatioE (jdl rl : Str) (acc : List ℚ) (p : Str × List Str) :
    Except String (List ℚ) :=
  if 0 < p.2.countP (fun kw => isSubstr kw jdl) then
    (pydiv ((p.2.countP (fun kw => isSubstr kw rl)) : ℚ) ((p.2.length : ℚ))).map
      (fun q => acc ++ [q])
  else .ok acc

/-- `compute_enhanced_component_scores` with every division routed
through `pydiv`. -/
def computeE (job_desc resume_text : Str)
    (jd_skills resume_skills : List Str) (experience_data : List (Str × ℚ)) :
    Except String ComponentOut :=
  (find_skill_matchesE jd_skills resume_text resume_skills).bind (fun sa =>
  (cwsE sa jd_skills).bind (fun cws =>
  (contextE sa).bind (fun skill_context =>
  (JOB_TYPES.foldlM (bucketRatioE (lcStr job_desc) (lcStr resume_text)) []).bind (fun ratios =>
  (pydiv (sumConf sa.confidence_scores)
      ((max 1 sa.confidence_scores.length : ℕ) : ℚ)).bind (fun avg =>
  .ok { skill_match_score := min 1 (sa.match_rate * (7/10) + cws * (3/10))
        skill_context_score := skill_context
        experience_duration_score :=
          experience_duration_score (getQ experience_data ("technical_years_experience".data))
        impact_score := impact_score resume_text
        project_score := project_score resume_text
        education_score := education_score (lcStr resume_text)
        relevance_score := if ratios.isEmpty then 1/2 else min 1 (qmax ratios + 3/10)
        matched_skills := sa.matched_skills
        skill_evidence := sa.skill_evidence
        confidence_scores := sa.confidence_scores
        years_experience_estimate := getQ experience_data ("total_years_experience".data)
        technical_years_estimate := getQ experience_data ("technical_years_experience".data)
        total_jd_skills := jd_skills.length
        skills_matched := sa.matched_skills.length
        skills_with_evidence := (sa.skill_evidence.filter (fun p => !p.2.isEmpty)).length
        average_confidence := avg
        impact_indicators_found := impactCount resume_text })))))

lemma cf_nil (rt : Str) (rs : List Str) :
    (find_skill_matches [] rt rs).confidence_scores = [] := rfl

lemma cwsE_ok (jd_skills : List Str) (rt : Str) (rs : List Str) :
    cwsE (find_skill_matches jd_skills rt rs) jd_skills = .ok (
      if (find_skill_matches jd_skills rt rs).confidence_scores.isEmpty then 0
      else if 0 < sumConf (find_skill_matches jd_skills rt rs).confidence_scores then
        sumConf (find_skill_matches jd_skills rt rs).confidence_scores /
          (jd_skills.length : ℚ)
      else 0) := by
  unfold cwsE
  split_ifs with h1 h2
  · rfl
  · have hjd : jd_skills ≠ [] := by
      intro he
      subst he
      rw [cf_nil] at h1
      simp at h1
    have hne : ((jd_skills.length : ℕ) : ℚ) ≠ 0 := by
      have := List.length_pos.mpr hjd
      exact_mod_cast Nat.pos_iff_ne_zero.mp this
    rw [pydiv_ok _ _ hne]
  · rfl

lemma contextE_ok (sa : SkillMatchResult) :
    contextE sa = .ok (
      if 0 < sa.matched_skills.length then
        (skillsWithContext sa : ℚ) / ((max 1 sa.matched_skills.length : ℕ) : ℚ)
      else 0) := by
  unfold contextE
  split_ifs with h
  · have hne : (((max 1 sa.matched_skills.length : ℕ)) : ℚ) ≠ 0 := by
      have : (0:ℕ) < max 1 sa.matched_skills.length :=
        lt_of_lt_of_le Nat.zero_lt_one (le_max_left _ _)
      exact_mod_cast Nat.pos_iff_ne_zero.mp this
    rw [pydiv_ok _ _ hne]
  · rfl

lemma buckets_ok (jdl rl : Str) (l : List (Str × List Str)) :
    ∀ acc : List ℚ,
      l.foldlM (bucketRatioE jdl rl) acc = .ok (acc ++ l.filterMap (fun p =>
        if 0 < p.2.countP (fun kw => isSubstr kw jdl)
        then some ((p.2.countP (fun kw => isSubstr kw rl) : ℚ) / (p.2.length : ℚ))
        else none)) := by
  induction l with
  | nil =>
    intro acc
    simp only [List.foldlM_nil, List.filterMap_nil, List.append_nil]
    rfl
  | cons p ps ih =>
    intro acc
    rw [List.foldlM_cons, List.filterMap_cons]
    by_cases h : 0 < p.2.countP (fun kw => isSubstr kw jdl)
    · have hlen : (0:ℕ) < p.2.length := Nat.lt_of_lt_of_le h (List.countP_le_length _)
      have hne : ((p.2.length : ℕ) : ℚ) ≠ 0 := by
        exact_mod_cast Nat.pos_iff_ne_zero.mp hlen
      rw [if_pos h]
      show (bucketRatioE jdl rl acc p).bind _ = _
      unfold bucketRatioE
      rw [if_pos h, pydiv_ok _ _ hne]
      show (List.foldlM (bucketRatioE jdl rl) (acc ++ [_]) ps) = _
      rw [ih]
      simp
    · rw [if_neg h]
      show (bucketRatioE jdl rl acc p).bind _ = _
      unfold bucketRatioE
      rw [if_neg h]
      show (List.foldlM (bucketRatioE jdl rl) acc ps) = _
      rw [ih]

lemma computeE_ok (job_desc resume_text : Str)
    (jd_skills resume_skills : List Str) (experience_data : List (Str × ℚ)) :
    computeE job_desc resume_text jd_skills resume_skills experience_data =
      .ok (compute_enhanced_component_scores job_desc resume_text jd_skills
        resume_skills experience_data) := by
  have havg : (((max 1 (find_skill_matches jd_skills resume_text
      resume_skills).confidence_scores.length : ℕ)) : ℚ) ≠ 0 := by
    have : (0:ℕ) < max 1 (find_skill_matches jd_skills resume_text
        resume_skills).confidence_scores.length :=
      lt_of_lt_of_le Nat.zero_lt_one (le_max_left _ _)
    exact_mod_cast Nat.pos_iff_ne_zero.mp this
  unfold computeE
  rw [fsmE_ok, ok_bind, cwsE_ok, ok_bind, contextE_ok, ok_bind, buckets_ok, ok_bind,
    pydiv_ok _ _ havg, ok_bind]
  rfl

/-- C9: on well-typed inputs the scorer and matcher never raise: the
error-aware versions (with Python's `ZeroDivisionError` made explicit
at every division site) always return `.ok` of the pure model, and a
missing experience-summary key behaves exactly as the key set to 0. -/
theorem scoring_C9 :
    (∀ (job_desc resume_text : Str) (jd_skills resume_skills : List Str)
      (experience_data : List (Str × ℚ)),
      computeE job_desc resume_text jd_skills resume_skills experience_data =
        .ok (compute_enhanced_component_scores job_desc resume_text jd_skills
          resume_skills experience_data)) ∧
      (∀ (jd_skills resume_skills : List Str) (resume_text : Str),
        find_skill_matchesE jd_skills resume_text resume_skills =
          .ok (find_skill_matches jd_skills resume_text resume_skills)) ∧
      (∀ (job_desc resume_text : Str) (jd_skills resume_skills : List Str),
        compute_enhanced_component_scores job_desc resume_text jd_skills resume_skills [] =
          compute_enhanced_component_scores job_desc resume_text jd_skills resume_skills
            [("total_years_experience".data, 0), ("technical_years_experience".data, 0)]) := by
  refine ⟨computeE_ok, fun jd rs rt => fsmE_ok jd rt rs, ?_⟩
  intro job_desc resume_text jd_skills resume_skills
  have h1 : getQ [] ("total_years_experience".data) = 0 := rfl
  have h2 : getQ [] ("technical_years_experience".data) = 0 := rfl
  have h3 : getQ [("total_years_experience".data, 0), ("technical_years_experience".data, 0)]
      ("total_years_experience".data) = 0 := by
    simp +decide [getQ, List.find?]
  have h4 : getQ [("total_years_experience".data, 0), ("technical_years_experience".data, 0)]
      ("technical_years_experience".data) = 0 := by
    simp +decide [getQ, List.find?]
  unfold compute_enhanced_component_scores
  rw [h1, h2, h3, h4]

/-! ## C8 : bounds and the identity property of the fuzzy ratio -/

/-- The `find_longest_match` state lies inside the window. -/
def BestIn (alo ahi blo bhi : ℕ) (st : Best) : Prop :=
  alo ≤ st.bi ∧ st.bi + st.bs ≤ ahi ∧ blo ≤ st.bj ∧ st.bj + st.bs ≤ bhi

/-- Bounds of a `j2len` row while step `iCur` runs: keys in
`[blo, bhi)`, values at most `iCur - alo` and at most `key + 1 - blo`
(stated additively). -/
def RowB (alo blo bhi iCur : ℕ) (m : List (ℕ × ℕ)) : Prop :=
  ∀ p ∈ m, blo ≤ p.1 ∧ p.1 < bhi ∧ p.2 + alo ≤ iCur ∧ p.2 + blo ≤ p.1 + 1

lemma j2get_cases (m : List (ℕ × ℕ)) (x : ℕ) :
    j2get m x = 0 ∨ ∃ p ∈ m, p.1 = x ∧ p.2 = j2get m x := by
  unfold j2get
  cases h : m.find? (fun p => p.1 = x) with
  | none => exact Or.inl rfl
  | some p =>
    right
    refine ⟨p, List.mem_of_find?_eq_some h, ?_, rfl⟩
    have := List.find?_some h
    simpa using this

lemma flmInner_bound (i alo blo bhi ahi : ℕ) (old : List (ℕ × ℕ))
    (hold : RowB alo blo bhi i old) (hialo : alo ≤ i) (hiahi : i < ahi) :
    ∀ js st acc, BestIn alo ahi blo bhi st → RowB alo blo bhi (i + 1) acc →
      BestIn alo ahi blo bhi (flmInner i blo bhi old js st acc).1 ∧
        RowB alo blo bhi (i + 1) (flmInner i blo bhi old js st acc).2 := by
  intro js
  induction js with
  | nil => intro st acc h1 h2; exact ⟨h1, h2⟩
  | cons j rest ih =>
    intro st acc h1 h2
    show BestIn alo ahi blo bhi (flmInner i blo bhi old (j :: rest) st acc).1 ∧ _
    unfold flmInner
    by_cases hj1 : j < blo
    · rw [if_pos hj1]
      exact ih st acc h1 h2
    · rw [if_neg hj1]
      by_cases hj2 : bhi ≤ j
      · rw [if_pos hj2]
        exact ⟨h1, h2⟩
      · rw [if_neg hj2]
        have hk1 : ((if j = 0 then 0 else j2get old (j - 1)) + 1) + alo ≤ i + 1 := by
          split_ifs with h0
          · omega
          · rcases j2get_cases old (j - 1) with h | ⟨p, hp, _, hpv⟩
            · omega
            · have := hold p hp
              omega
        have hk2 : ((if j = 0 then 0 else j2get old (j - 1)) + 1) + blo ≤ j + 1 := by
          split_ifs with h0
          · omega
          · rcases j2get_cases old (j - 1) with h | ⟨p, hp, hpk, hpv⟩
            · omega
            · have := hold p hp
              omega
        refine ih _ _ ?_ ?_
        · by_cases hu : st.bs < (if j = 0 then 0 else j2get old (j - 1)) + 1
          · rw [if_pos hu]
            rcases h1 with ⟨a1, a2, a3, a4⟩
            refine ⟨?_, ?_, ?_, ?_⟩ <;> simp only [] <;> omega
          · rw [if_neg hu]
            exact h1
        · intro p hp
          rcases List.mem_cons.mp hp with h | h
          · rw [h]
            refine ⟨by omega, by omega, by omega, by omega⟩
          · exact h2 p h

lemma flmOuter_bound (a b : Str) (alo ahi blo bhi : ℕ) :
    ∀ (l : List ℕ) st row, (∀ i ∈ l, alo ≤ i ∧ i < ahi) →
      l.Pairwise (· < ·) →
      BestIn alo ahi blo bhi st →
      (∀ p ∈ row, blo ≤ p.1 ∧ p.1 < bhi ∧ (∀ i ∈ l, p.2 + alo ≤ i) ∧
        p.2 + blo ≤ p.1 + 1) →
      BestIn alo ahi blo bhi (flmOuter a b blo bhi l st row) := by
  intro l
  induction l with
  | nil => intro st row _ _ h1 _; exact h1
  | cons i rest ih =>
    intro st row hmem hsort h1 hrow
    have hi := hmem i (List.mem_cons_self _ _)
    have hrowi : RowB alo blo bhi i row := by
      intro p hp
      have := hrow p hp
      exact ⟨this.1, this.2.1, this.2.2.1 i (List.mem_cons_self _ _), this.2.2.2⟩
    have hr := flmInner_bound i alo blo bhi ahi row hrowi hi.1 hi.2
      (b2j b (a.getD i ' ')) st [] h1 (by intro p hp; simp at hp)
    show BestIn alo ahi blo bhi (flmOuter a b blo bhi rest _ _)
    refine ih _ _ (fun i' hi' => hmem i' (List.mem_cons_of_mem _ hi'))
      (List.Pairwise.sublist (List.sublist_cons_self _ _) hsort) hr.1 ?_
    intro p hp
    have h3 := hr.2 p hp
    have hlt : ∀ i' ∈ rest, i < i' := (List.pairwise_cons.mp hsort).1
    refine ⟨h3.1, h3.2.1, ?_, h3.2.2.2⟩
    intro i' hi'
    have := hlt i' hi'
    have := h3.2.2.1
    omega

lemma flmMain_bound (a b : Str) (alo ahi blo bhi : ℕ)
    (h1 : alo ≤ ahi) (h2 : blo ≤ bhi) :
    BestIn alo ahi blo bhi (flmMain a b alo ahi blo bhi) := by
  unfold flmMain
  refine flmOuter_bound a b alo ahi blo bhi _ _ _ ?_ ?_ ?_ ?_
  · intro i hi
    have := List.mem_range'_1.mp hi
    omega
  · exact List.pairwise_lt_range' _ _ 1 (by omega)
  · exact ⟨le_refl _, by simpa using h1, le_refl _, by simpa using h2⟩
  · intro p hp
    simp at hp

lemma extBack_bound (a b : Str) (alo ahi blo bhi : ℕ) :
    ∀ f st, BestIn alo ahi blo bhi st →
      BestIn alo ahi blo bhi (extBack a b alo blo f st) := by
  intro f
  induction f with
  | zero => intro st h; exact h
  | succ f ih =>
    intro st h
    unfold extBack
    split_ifs with hc
    · simp only [Bool.and_eq_true, decide_eq_true_eq] at hc
      refine ih _ ?_
      rcases h with ⟨a1, a2, a3, a4⟩
      refine ⟨?_, ?_, ?_, ?_⟩ <;> simp only [] <;> omega
    · exact h

lemma extFwd_bound (a b : Str) (alo ahi blo bhi : ℕ) :
    ∀ f st, BestIn alo ahi blo bhi st →
      BestIn alo ahi blo bhi (extFwd a b ahi bhi f st) := by
  intro f
  induction f with
  | zero => intro st h; exact h
  | succ f ih =>
    intro st h
    unfold extFwd
    split_ifs with hc
    · simp only [Bool.and_eq_true, decide_eq_true_eq] at hc
      refine ih _ ?_
      rcases h with ⟨a1, a2, a3, a4⟩
      refine ⟨?_, ?_, ?_, ?_⟩ <;> simp only [] <;> omega
    · exact h

lemma flm_bound (a b : Str) (alo ahi blo bhi : ℕ)
    (h1 : alo ≤ ahi) (h2 : blo ≤ bhi) :
    BestIn alo ahi blo bhi (flm a b alo ahi blo bhi) := by
  unfold flm
  exact extFwd_bound a b alo ahi blo bhi _ _
    (extBack_bound a b alo ahi blo bhi _ _ (flmMain_bound a b alo ahi blo bhi h1 h2))

lemma msum_bound (a b : Str) :
    ∀ (f alo ahi blo bhi : ℕ), alo ≤ ahi → blo ≤ bhi →
      msum a b f alo ahi blo bhi + alo ≤ ahi ∧
        msum a b f alo ahi blo bhi + blo ≤ bhi := by
  intro f
  induction f with
  | zero => intro alo ahi blo bhi h1 h2; simp [msum]; omega
  | succ f ih =>
    intro alo ahi blo bhi h1 h2
    have hb := flm_bound a b alo ahi blo bhi h1 h2
    rcases hb with ⟨b1, b2, b3, b4⟩
    have hun : msum a b (f + 1) alo ahi blo bhi =
        (if (flm a b alo ahi blo bhi).bs = 0 then 0
         else msum a b f alo (flm a b alo ahi blo bhi).bi blo
             (flm a b alo ahi blo bhi).bj + (flm a b alo ahi blo bhi).bs +
           msum a b f ((flm a b alo ahi blo bhi).bi + (flm a b alo ahi blo bhi).bs) ahi
             ((flm a b alo ahi blo bhi).bj + (flm a b alo ahi blo bhi).bs) bhi) := rfl
    rw [hun]
    split_ifs with hz
    · constructor <;> omega
    · have hl := ih alo (flm a b alo ahi blo bhi).bi blo (flm a b alo ahi blo bhi).bj
        (by omega) (by omega)
      have hr := ih ((flm a b alo ahi blo bhi).bi + (flm a b alo ahi blo bhi).bs) ahi
        ((flm a b alo ahi blo bhi).bj + (flm a b alo ahi blo bhi).bs) bhi
        (by omega) (by omega)
      constructor <;> omega

lemma ratioOf_bounds (a b : Str) : 0 ≤ ratioOf a b ∧ ratioOf a b ≤ 1 := by
  unfold ratioOf
  split_ifs with hz
  · norm_num
  · have hm := msum_bound a b (a.length + 1) 0 a.length 0 b.length
      (Nat.zero_le _) (Nat.zero_le _)
    have hM : 2 * msum a b (a.length + 1) 0 a.length 0 b.length ≤
        a.length + b.length := by omega
    have hpos : (0:ℚ) < (a.length : ℚ) + (b.length : ℚ) := by
      have : 0 < a.length + b.length := Nat.pos_of_ne_zero hz
      exact_mod_cast this
    constructor
    · positivity
    · rw [div_le_one hpos]
      calc 2 * (msum a b (a.length + 1) 0 a.length 0 b.length : ℚ) =
            ((2 * msum a b (a.length + 1) 0 a.length 0 b.length : ℕ) : ℚ) := by
              push_cast
              ring
        _ ≤ ((a.length + b.length : ℕ) : ℚ) := by exact_mod_cast hM
        _ = (a.length : ℚ) + (b.length : ℚ) := by push_cast; ring

/-- Diagonal chain: length of the maximal run of non-popular characters
of `l` ending at index `i` — the value the main loop's self-match chain
reaches at step `i` on identical inputs. -/
def dchain (l : Str) : ℕ → ℕ
  | 0 => if popularB l (l.getD 0 ' ') then 0 else 1
  | i + 1 => if popularB l (l.getD (i + 1) ' ') then 0 else dchain l i + 1

/-- Common chain: the value `j2len[j]` holds after step `i` of the main
loop on identical inputs (longest common suffix of `l[..i]` and
`l[..j]` through non-popular positions). -/
def cchain (l : Str) : ℕ → ℕ → ℕ
  | 0, j =>
    if l.getD 0 ' ' = l.getD j ' ' ∧ popularB l (l.getD j ' ') = false then 1 else 0
  | i + 1, 0 =>
    if l.getD (i + 1) ' ' = l.getD 0 ' ' ∧ popularB l (l.getD 0 ' ') = false then 1 else 0
  | i + 1, j + 1 =>
    if l.getD (i + 1) ' ' = l.getD (j + 1) ' ' ∧ popularB l (l.getD (j + 1) ' ') = false
    then cchain l i j + 1 else 0

lemma cchain_pos_facts (l : Str) (i j : ℕ) (h : cchain l i j ≠ 0) :
    l.getD i ' ' = l.getD j ' ' ∧ popularB l (l.getD j ' ') = false := by
  match i, j with
  | 0, j =>
    unfold cchain at h
    split_ifs at h with hc
    · exact hc
    · simp at h
  | i + 1, 0 =>
    unfold cchain at h
    split_ifs at h with hc
    · exact hc
    · simp at h
  | i + 1, j + 1 =>
    unfold cchain at h
    split_ifs at h with hc
    · exact hc
    · simp at h

lemma dchain_pos (l : Str) (i : ℕ) (h : popularB l (l.getD i ' ') = false) :
    1 ≤ dchain l i := by
  cases i with
  | zero => unfold dchain; rw [h]; simp
  | succ i => unfold dchain; rw [h]; simp

lemma dchain_pop (l : Str) (i : ℕ) (h : popularB l (l.getD i ' ') = true) :
    dchain l i = 0 := by
  cases i with
  | zero => unfold dchain; rw [h]; simp
  | succ i => unfold dchain; rw [h]; simp

lemma cchain_le_dchain_left (l : Str) : ∀ i j, cchain l i j ≤ dchain l i := by
  intro i
  induction i with
  | zero =>
    intro j
    unfold cchain dchain
    split_ifs with hc hp
    · rcases hc with ⟨he, hf⟩
      rw [he] at hp
      rw [hf] at hp
      simp at hp
    · exact le_refl 1
    · exact Nat.zero_le _
    · exact Nat.zero_le _
  | succ i ih =>
    intro j
    cases j with
    | zero =>
      unfold cchain dchain
      split_ifs with hc hp
      · rcases hc with ⟨he, hf⟩
        rw [he] at hp
        rw [hf] at hp
        simp at hp
      · simp
      · exact Nat.zero_le _
      · exact Nat.zero_le _
    | succ j =>
      unfold cchain dchain
      split_ifs with hc hp
      · rcases hc with ⟨he, hf⟩
        rw [he] at hp
        rw [hf] at hp
        simp at hp
      · have := ih j
        omega
      · exact Nat.zero_le _
      · exact Nat.zero_le _

lemma cchain_le_dchain_right (l : Str) : ∀ i j, cchain l i j ≤ dchain l j := by
  intro i
  induction i with
  | zero =>
    intro j
    unfold cchain
    split_ifs with hc
    · exact dchain_pos l j hc.2
    · exact Nat.zero_le _
  | succ i ih =>
    intro j
    cases j with
    | zero =>
      unfold cchain
      split_ifs with hc
      · exact dchain_pos l 0 hc.2
      · exact Nat.zero_le _
    | succ j =>
      unfold cchain
      split_ifs with hc
      · show cchain l i j + 1 ≤ dchain l (j + 1)
        unfold dchain
        rw [hc.2]
        simp only [Bool.false_eq_true, if_false]
        have := ih j
        omega
      · exact Nat.zero_le _

lemma cchain_diag (l : Str) : ∀ i, cchain l i i = dchain l i := by
  intro i
  induction i with
  | zero =>
    unfold cchain dchain
    cases hp : popularB l (l.getD 0 ' ') with
    | true => simp [hp]
    | false => simp [hp]
  | succ i ih =>
    unfold cchain dchain
    cases hp : popularB l (l.getD (i + 1) ' ') with
    | true => simp [hp]
    | false => simp [hp, ih]

lemma get?_getD (l : Str) : ∀ (x : ℕ), x < l.length → l.get? x = some (l.getD x ' ') := by
  induction l with
  | nil => intro x hx; simp at hx
  | cons c cs ih =>
    intro x hx
    cases x with
    | zero => rfl
    | succ x =>
      show cs.get? x = some (cs.getD x ' ')
      exact ih x (by simpa using hx)

lemma mem_b2jAll (l : Str) (ch : Char) (x : ℕ) :
    x ∈ b2jAll l ch ↔ x < l.length ∧ l.getD x ' ' = ch := by
  unfold b2jAll
  simp only [List.mem_filter, List.mem_range, decide_eq_true_eq]
  constructor
  · rintro ⟨h1, h2⟩
    rw [get?_getD l x h1] at h2
    exact ⟨h1, by simpa using h2⟩
  · rintro ⟨h1, h2⟩
    rw [get?_getD l x h1, h2]
    exact ⟨h1, rfl⟩

lemma mem_b2j (l : Str) (ch : Char) (x : ℕ) :
    x ∈ b2j l ch ↔ popularB l ch = false ∧ x < l.length ∧ l.getD x ' ' = ch := by
  unfold b2j
  split_ifs with hp
  · simp [hp]
  · rw [mem_b2jAll]
    simp [eq_false_of_ne_true hp]

lemma cchain_zero_out (l : Str) (i x : ℕ) (hx : x < l.length)
    (hnot : x ∉ b2j l (l.getD i ' ')) : cchain l i x = 0 := by
  by_contra h
  rcases cchain_pos_facts l i x h with ⟨he, hf⟩
  apply hnot
  rw [mem_b2j]
  refine ⟨?_, hx, he.symm⟩
  rw [he]
  exact hf

lemma cchain_zero_pop (l : Str) (i x : ℕ)
    (hp : popularB l (l.getD i ' ') = true) : cchain l i x = 0 := by
  by_contra h
  rcases cchain_pos_facts l i x h with ⟨he, hf⟩
  rw [← he] at hf
  rw [hp] at hf
  simp at hf

lemma j2get_cons (j k x : ℕ) (m : List (ℕ × ℕ)) :
    j2get ((j, k) :: m) x = if x = j then k else j2get m x := by
  unfold j2get
  rcases eq_or_ne j x with h | h
  · subst h
    simp [List.find?]
  · rw [List.find?_cons_of_neg]
    · rw [if_neg (Ne.symm h)]
    · simp [h]

lemma flmInner_diag (l : Str) (i : ℕ) (old : List (ℕ × ℕ))
    (hold : ∀ x, x < l.length →
      j2get old x = (if i = 0 then 0 else cchain l (i - 1) x)) :
    ∀ js st acc,
      js.Pairwise (· < ·) →
      (∀ j ∈ js, j < l.length ∧ l.getD j ' ' = l.getD i ' ' ∧
        popularB l (l.getD i ' ') = false) →
      st.bi = st.bj →
      (∀ i', i' < i → dchain l i' ≤ st.bs) →
      (i ∈ js ∨ dchain l i ≤ st.bs) →
      (∀ x, x < l.length →
        j2get acc x = (if x ∈ js then 0 else cchain l i x)) →
      (flmInner i 0 l.length old js st acc).1.bi =
          (flmInner i 0 l.length old js st acc).1.bj ∧
        (∀ i', i' ≤ i → dchain l i' ≤ (flmInner i 0 l.length old js st acc).1.bs) ∧
        (∀ x, x < l.length →
          j2get (flmInner i 0 l.length old js st acc).2 x = cchain l i x) := by
  intro js
  induction js with
  | nil =>
    intro st acc _ _ hdiag hprev hpend hacc
    refine ⟨hdiag, ?_, ?_⟩
    · intro i' hi'
      rcases Nat.lt_or_ge i' i with h | h
      · exact hprev i' h
      · have he : i' = i := le_antisymm hi' h
        subst he
        rcases hpend with h | h
        · simp at h
        · exact h
    · intro x hx
      have := hacc x hx
      simpa using this
  | cons j rest ih =>
    intro st acc hsort hjs hdiag hprev hpend hacc
    have hj := hjs j (List.mem_cons_self _ _)
    have hrest_gt : ∀ a ∈ rest, j < a := (List.pairwise_cons.mp hsort).1
    have hjnotrest : j ∉ rest := fun hm => absurd (hrest_gt j hm) (lt_irrefl j)
    have hcond : l.getD i ' ' = l.getD j ' ' ∧ popularB l (l.getD j ' ') = false :=
      ⟨hj.2.1.symm, by rw [hj.2.1]; exact hj.2.2⟩
    have hk : (if j = 0 then 0 else j2get old (j - 1)) + 1 = cchain l i j := by
      match i, hold with
      | 0, hold =>
        show _ = cchain l 0 j
        unfold cchain
        rw [if_pos hcond]
        split_ifs with h0
        · rfl
        · rw [hold (j - 1) (by omega)]
          simp
      | i' + 1, hold =>
        match j, hcond, hj with
        | 0, hcond, hj =>
          show _ = cchain l (i' + 1) 0
          unfold cchain
          rw [if_pos hcond, if_pos rfl]
        | j' + 1, hcond, hj =>
          show _ = cchain l (i' + 1) (j' + 1)
          unfold cchain
          rw [if_pos hcond]
          rw [if_neg (by omega : ¬(j' + 1 = 0))]
          show j2get old j' + 1 = cchain l i' j' + 1
          rw [hold j' (by omega)]
          simp
    have hstep : flmInner i 0 l.length old (j :: rest) st acc =
        flmInner i 0 l.length old rest
          (if st.bs < cchain l i j then
            ⟨i + 1 - cchain l i j, j + 1 - cchain l i j, cchain l i j⟩ else st)
          ((j, cchain l i j) :: acc) := by
      conv_lhs => rw [flmInner]
      rw [if_neg (Nat.not_lt_zero j), if_neg (not_le.mpr hj.1)]
      rw [hk]
    rw [hstep]
    have hacc' : ∀ x, x < l.length →
        j2get ((j, cchain l i j) :: acc) x = (if x ∈ rest then 0 else cchain l i x) := by
      intro x hx
      rw [j2get_cons]
      by_cases hxj : x = j
      · subst hxj
        rw [if_neg hjnotrest, if_pos rfl]
      · rw [if_neg hxj, hacc x hx]
        by_cases hxr : x ∈ rest
        · rw [if_pos hxr, if_pos (List.mem_cons_of_mem _ hxr)]
        · rw [if_neg hxr, if_neg (by simp [List.mem_cons, hxj, hxr])]
    have hjs' : ∀ j' ∈ rest, j' < l.length ∧ l.getD j' ' ' = l.getD i ' ' ∧
        popularB l (l.getD i ' ') = false :=
      fun j' hj' => hjs j' (List.mem_cons_of_mem _ hj')
    have hsort' : rest.Pairwise (· < ·) := (List.pairwise_cons.mp hsort).2
    rcases Nat.lt_trichotomy j i with hji | hji | hji
    · -- j < i : the candidate cannot beat the recorded best
      have hk_le : cchain l i j ≤ st.bs :=
        le_trans (cchain_le_dchain_right l i j) (hprev j hji)
      rw [if_neg (not_lt.mpr hk_le)]
      refine ih _ _ hsort' hjs' hdiag hprev ?_ hacc'
      rcases hpend with h | h
      · rcases List.mem_cons.mp h with h' | h'
        · omega
        · exact Or.inl h'
      · exact Or.inr h
    · -- j = i : the diagonal entry; any update stays diagonal
      subst hji
      by_cases hu : st.bs < cchain l j j
      · rw [if_pos hu]
        refine ih _ _ hsort' hjs' rfl ?_ ?_ hacc'
        · intro i' hi'
          exact le_trans (hprev i' hi') (le_of_lt hu)
        · exact Or.inr (le_of_eq (cchain_diag l j).symm)
      · rw [if_neg hu]
        refine ih _ _ hsort' hjs' hdiag hprev ?_ hacc'
        exact Or.inr ((cchain_diag l j) ▸ (not_lt.mp hu))
    · -- i < j : the diagonal entry was already processed
      have hir : i ∉ rest := fun hm => absurd (hrest_gt i hm) (by omega)
      have hpd : dchain l i ≤ st.bs := by
        rcases hpend with h | h
        · rcases List.mem_cons.mp h with h' | h'
          · omega
          · exact absurd h' hir
        · exact h
      have hk_le : cchain l i j ≤ st.bs :=
        le_trans (cchain_le_dchain_left l i j) hpd
      rw [if_neg (not_lt.mpr hk_le)]
      exact ih _ _ hsort' hjs' hdiag hprev (Or.inr hpd) hacc'

lemma flmOuter_diag (l : Str) :
    ∀ (cnt i0 : ℕ) (st : Best) (row : List (ℕ × ℕ)),
      i0 + cnt ≤ l.length →
      st.bi = st.bj →
      (∀ i', i' < i0 → dchain l i' ≤ st.bs) →
      (∀ x, x < l.length →
        j2get row x = (if i0 = 0 then 0 else cchain l (i0 - 1) x)) →
      (flmOuter l l 0 l.length (List.range' i0 cnt) st row).bi =
          (flmOuter l l 0 l.length (List.range' i0 cnt) st row).bj ∧
        (∀ i', i' < i0 + cnt →
          dchain l i' ≤ (flmOuter l l 0 l.length (List.range' i0 cnt) st row).bs) := by
  intro cnt
  induction cnt with
  | zero =>
    intro i0 st row _ hdiag hprev _
    exact ⟨hdiag, fun i' h => hprev i' (by omega)⟩
  | succ cnt ih =>
    intro i0 st row hle hdiag hprev hrow
    rw [List.range'_succ]
    have hstep : flmOuter l l 0 l.length (i0 :: List.range' (i0 + 1) cnt) st row =
        flmOuter l l 0 l.length (List.range' (i0 + 1) cnt)
          (flmInner i0 0 l.length row (b2j l (l.getD i0 ' ')) st []).1
          (flmInner i0 0 l.length row (b2j l (l.getD i0 ' ')) st []).2 := rfl
    rw [hstep]
    by_cases hp : popularB l (l.getD i0 ' ') = true
    · have hb : b2j l (l.getD i0 ' ') = [] := by
        unfold b2j
        rw [if_pos hp]
      rw [hb]
      have hid : flmInner i0 0 l.length row [] st [] = (st, []) := rfl
      rw [hid]
      have h := ih (i0 + 1) st [] (by omega) hdiag ?_ ?_
      · exact ⟨h.1, fun i' hi' => h.2 i' (by omega)⟩
      · intro i' hi'
        rcases Nat.lt_or_ge i' i0 with h' | h'
        · exact hprev i' h'
        · have he : i' = i0 := by omega
          subst he
          rw [dchain_pop l i' hp]
          exact Nat.zero_le _
      · intro x hx
        show (0:ℕ) = _
        rw [if_neg (by omega : ¬(i0 + 1 = 0))]
        have hc : cchain l (i0 + 1 - 1) x = 0 := by
          simpa using cchain_zero_pop l i0 x hp
        omega
    · have hp' : popularB l (l.getD i0 ' ') = false := eq_false_of_ne_true hp
      have hi0n : i0 < l.length := by omega
      have hb : b2j l (l.getD i0 ' ') = b2jAll l (l.getD i0 ' ') := by
        unfold b2j
        rw [if_neg hp]
      rw [hb]
      have hsortb : (b2jAll l (l.getD i0 ' ')).Pairwise (· < ·) :=
        List.Pairwise.filter _ (List.pairwise_lt_range _)
      have hjs : ∀ j ∈ b2jAll l (l.getD i0 ' '), j < l.length ∧
          l.getD j ' ' = l.getD i0 ' ' ∧ popularB l (l.getD i0 ' ') = false := by
        intro j hjm
        have h := (mem_b2jAll l _ j).mp hjm
        exact ⟨h.1, h.2, hp'⟩
      have hmem : i0 ∈ b2jAll l (l.getD i0 ' ') := (mem_b2jAll l _ i0).mpr ⟨hi0n, rfl⟩
      have hacc0 : ∀ x, x < l.length → j2get ([] : List (ℕ × ℕ)) x =
          (if x ∈ b2jAll l (l.getD i0 ' ') then 0 else cchain l i0 x) := by
        intro x hx
        show (0:ℕ) = _
        by_cases hxm : x ∈ b2jAll l (l.getD i0 ' ')
        · rw [if_pos hxm]
        · rw [if_neg hxm]
          have hnb : x ∉ b2j l (l.getD i0 ' ') := by
            rw [hb]
            exact hxm
          exact (cchain_zero_out l i0 x hx hnb).symm
      have hinner := flmInner_diag l i0 row hrow (b2jAll l (l.getD i0 ' ')) st []
        hsortb hjs hdiag hprev (Or.inl hmem) hacc0
      have h := ih (i0 + 1)
        (flmInner i0 0 l.length row (b2jAll l (l.getD i0 ' ')) st []).1
        (flmInner i0 0 l.length row (b2jAll l (l.getD i0 ' ')) st []).2
        (by omega) hinner.1 ?_ ?_
      · exact ⟨h.1, fun i' hi' => h.2 i' (by omega)⟩
      · intro i' hi'
        exact hinner.2.1 i' (by omega)
      · intro x hx
        rw [if_neg (by omega : ¬(i0 + 1 = 0))]
        have := hinner.2.2 x hx
        simpa using this

lemma flmMain_diag (l : Str) :
    (flmMain l l 0 l.length 0 l.length).bi = (flmMain l l 0 l.length 0 l.length).bj := by
  have h := flmOuter_diag l l.length 0 ⟨0, 0, 0⟩ [] (by omega) rfl
    (by intro i' hi'; omega) (by intro x hx; rw [if_pos rfl]; rfl)
  exact h.1

lemma extBack_self (l : Str) :
    ∀ (d s : ℕ), extBack l l 0 0 d ⟨d, d, s⟩ = ⟨0, 0, s + d⟩ := by
  intro d
  induction d with
  | zero => intro s; rfl
  | succ d ih =>
    intro s
    show extBack l l 0 0 (d + 1) ⟨d + 1, d + 1, s⟩ = _
    unfold extBack
    rw [if_pos (by simp)]
    have h2 : (⟨0, 0, s + 1 + d⟩ : Best) = ⟨0, 0, s + (d + 1)⟩ := by
      congr 1
      omega
    exact (ih (s + 1)).trans h2

lemma extFwd_self (l : Str) (n : ℕ) :
    ∀ (f s : ℕ), f = n - s → s ≤ n → extFwd l l n n f ⟨0, 0, s⟩ = ⟨0, 0, n⟩ := by
  intro f
  induction f with
  | zero =>
    intro s hf hs
    have he : s = n := by omega
    show (⟨0, 0, s⟩ : Best) = ⟨0, 0, n⟩
    rw [he]
  | succ f ih =>
    intro s hf hs
    have hsn : s < n := by omega
    show extFwd l l n n (f + 1) ⟨0, 0, s⟩ = _
    unfold extFwd
    rw [if_pos (by simp [hsn])]
    exact ih (s + 1) (by omega) (by omega)

lemma flm_self (l : Str) : flm l l 0 l.length 0 l.length = ⟨0, 0, l.length⟩ := by
  have hdiag := flmMain_diag l
  have hbound := flmMain_bound l l 0 l.length 0 l.length (Nat.zero_le _) (Nat.zero_le _)
  have hflm : flm l l 0 l.length 0 l.length =
      extFwd l l l.length l.length
        (l.length - ((extBack l l 0 0 (flmMain l l 0 l.length 0 l.length).bi
            (flmMain l l 0 l.length 0 l.length)).bi +
          (extBack l l 0 0 (flmMain l l 0 l.length 0 l.length).bi
            (flmMain l l 0 l.length 0 l.length)).bs))
        (extBack l l 0 0 (flmMain l l 0 l.length 0 l.length).bi
          (flmMain l l 0 l.length 0 l.length)) := rfl
  rw [hflm]
  cases hM : flmMain l l 0 l.length 0 l.length with
  | mk bi bj bs =>
    rw [hM] at hdiag hbound
    have hbij : bi = bj := hdiag
    subst hbij
    rcases hbound with ⟨hb1, hb2, hb3, hb4⟩
    show extFwd l l l.length l.length
      (l.length - ((extBack l l 0 0 bi ⟨bi, bi, bs⟩).bi +
        (extBack l l 0 0 bi ⟨bi, bi, bs⟩).bs))
      (extBack l l 0 0 bi ⟨bi, bi, bs⟩) = ⟨0, 0, l.length⟩
    rw [extBack_self l bi bs]
    show extFwd l l l.length l.length (l.length - (0 + (bs + bi))) ⟨0, 0, bs + bi⟩ =
      ⟨0, 0, l.length⟩
    exact extFwd_self l l.length _ (bs + bi) (by omega) (by
      simp only [] at hb2
      omega)

lemma extBack_stop (a b : Str) (alo blo : ℕ) (f : ℕ) (st : Best)
    (h : ¬(alo < st.bi)) : extBack a b alo blo f st = st := by
  cases f with
  | zero => rfl
  | succ f =>
    unfold extBack
    rw [if_neg (by simp [h])]

lemma flm_deg (a b : Str) (lo bl bh : ℕ) : flm a b lo lo bl bh = ⟨lo, bl, 0⟩ := by
  have h1 : flmMain a b lo lo bl bh = ⟨lo, bl, 0⟩ := by
    unfold flmMain
    rw [Nat.sub_self]
    rfl
  have hflm : flm a b lo lo bl bh =
      extFwd a b lo bh
        (lo - ((extBack a b lo bl (flmMain a b lo lo bl bh).bi
            (flmMain a b lo lo bl bh)).bi +
          (extBack a b lo bl (flmMain a b lo lo bl bh).bi
            (flmMain a b lo lo bl bh)).bs))
        (extBack a b lo bl (flmMain a b lo lo bl bh).bi
          (flmMain a b lo lo bl bh)) := rfl
  rw [hflm, h1]
  rw [extBack_stop a b lo bl _ _ (by simp)]
  show extFwd a b lo bh (lo - (lo + 0)) ⟨lo, bl, 0⟩ = ⟨lo, bl, 0⟩
  have hz : lo - (lo + 0) = 0 := by omega
  rw [hz]
  rfl

lemma msum_deg (a b : Str) (f lo bl bh : ℕ) : msum a b f lo lo bl bh = 0 := by
  cases f with
  | zero => rfl
  | succ f =>
    have hun : msum a b (f + 1) lo lo bl bh =
        (if (flm a b lo lo bl bh).bs = 0 then 0
         else msum a b f lo (flm a b lo lo bl bh).bi bl (flm a b lo lo bl bh).bj +
             (flm a b lo lo bl bh).bs +
           msum a b f ((flm a b lo lo bl bh).bi + (flm a b lo lo bl bh).bs) lo
             ((flm a b lo lo bl bh).bj + (flm a b lo lo bl bh).bs) bh) := rfl
    rw [hun, flm_deg]
    simp

lemma msum_self (l : Str) (hn : l.length ≠ 0) :
    msum l l (l.length + 1) 0 l.length 0 l.length = l.length := by
  have hun : msum l l (l.length + 1) 0 l.length 0 l.length =
      (if (flm l l 0 l.length 0 l.length).bs = 0 then 0
       else msum l l l.length 0 (flm l l 0 l.length 0 l.length).bi 0
           (flm l l 0 l.length 0 l.length).bj + (flm l l 0 l.length 0 l.length).bs +
         msum l l l.length
           ((flm l l 0 l.length 0 l.length).bi + (flm l l 0 l.length 0 l.length).bs)
           l.length
           ((flm l l 0 l.length 0 l.length).bj + (flm l l 0 l.length 0 l.length).bs)
           l.length) := rfl
  rw [hun, flm_self]
  show (if l.length = 0 then 0
    else msum l l l.length 0 0 0 0 + l.length +
      msum l l l.length (0 + l.length) l.length (0 + l.length) l.length) = l.length
  rw [if_neg hn, Nat.zero_add, msum_deg, msum_deg]
  omega

lemma ratioOf_self (l : Str) : ratioOf l l = 1 := by
  unfold ratioOf
  by_cases hz : l.length + l.length = 0
  · rw [if_pos hz]
  · rw [if_neg hz]
    have hn : l.length ≠ 0 := by omega
    rw [msum_self l hn]
    have hq : (l.length : ℚ) ≠ 0 := by exact_mod_cast hn
    field_simp
    ring

/-- C8 (amended): the fuzzy similarity is bounded in [0, 1] on every
pair of inputs and returns 1.0 whenever the two inputs are identical;
symmetry, however, fails (see the counterexample). -/
theorem skills_C8_amended (a b : Str) :
    0 ≤ fuzzy_match_score a b ∧ fuzzy_match_score a b ≤ 1 ∧
      (a = b → fuzzy_match_score a b = 1) := by
  refine ⟨(ratioOf_bounds (lcStr a) (lcStr b)).1,
    (ratioOf_bounds (lcStr a) (lcStr b)).2, ?_⟩
  intro h
  subst h
  exact ratioOf_self (lcStr a)

/-- Witness for C8's amended theorem, discharging the identity
hypothesis at the concrete input "go". -/
theorem skills_C8_amended_witness :
    fuzzy_match_score ("go".data) ("go".data) = 1 :=
  (skills_C8_amended ("go".data) ("go".data)).2.2 rfl
